import Mathlib

/-!
Shallow embedding of the photo-book-curator service (src/app/main.py) and
proofs about its specification claims.

Modelling conventions, used consistently below:

* the SQLite tables (photos, books, selections) are modelled as Lean lists of
  records; the UNIQUE/PRIMARY KEY constraints of the schema appear as Nodup
  hypotheses on the corresponding key projections;
* SQL timestamps and dates are ISO-8601 strings; the SQLite date() function
  applied to an ISO string is the first ten characters, and SQL string
  comparison is the lexicographic String order (identical to chronological
  order on well-formed ISO strings);
* file modification times (REAL in the schema) and sizes are modelled as Int;
  the reconciliation only ever compares them for equality;
* the filesystem walk is modelled as the list of regular files with a
  supported extension below PHOTO_ROOT, each carrying the outcome of the
  fallible operations the code performs on it: stat (none models an OSError),
  the capture date that get_date_taken would return (including its
  mtime fallback), and whether thumbnail generation and archive writing would
  succeed for it;
* the fallible HTTP handlers return Except, with the HTTP status code as the
  error value.
-/

/-- Job phases of the process-wide index job state dictionary. -/
inductive JobPhase where
  | idle
  | running
  | complete
  | error
deriving DecidableEq, Repr

/-- The process-wide _index_state dictionary. -/
structure IndexJobState where
  phase : JobPhase
  startedAt : Option String
  finishedAt : Option String
  indexed : Nat
  new : Nat
  updated : Nat
  removed : Nat
  errors : Nat
  message : String
deriving DecidableEq, Repr

/-- A row of the photos table. -/
structure PhotoRecord where
  id : Int
  file_path : String
  date_taken : String
  thumbnail_path : String
  file_mtime : Int
  file_size : Int
deriving DecidableEq, Repr

/-- A row of the books table. -/
structure BookRecord where
  id : String
  child : String
  month : Int
  start_date : String
  end_date : String
  completed : Bool
deriving DecidableEq, Repr

/-- A row of the selections table. -/
structure SelectionRecord where
  book_id : String
  photo_id : Int
  selected : Bool
  updated_at : String
deriving DecidableEq, Repr

/-- The durable catalog: the three tables plus the next free photo id
(modelling the INTEGER PRIMARY KEY allocation of SQLite). -/
structure Catalog where
  photos : List PhotoRecord
  books : List BookRecord
  selections : List SelectionRecord
  nextId : Int
deriving DecidableEq, Repr

/-- A file observed by the os.walk pass, restricted to the supported
extensions.  stat is none when os.stat raises; dateTaken is the value
get_date_taken would produce for the file (EXIF value or mtime fallback);
thumbOk tells whether make_thumb would succeed; zipOk whether
zipfile.ZipFile.write would succeed for this source file. -/
structure FsFile where
  path : String
  stat : Option (Int × Int)
  dateTaken : String
  thumbOk : Bool
  zipOk : Bool
deriving DecidableEq, Repr

/-- SQLite date() applied to an ISO-8601 string: the date part, i.e. the
first ten characters. -/
def dateOnly (s : String) : String :=
  s.take 10

/-- Character-wise lexicographic comparison, the SQLite memcmp order on
TEXT values (identical to byte order on the ASCII strings involved). -/
def charListLt : List Char → List Char → Bool
  | _, [] => false
  | [], _ :: _ => true
  | a :: as, b :: bs =>
      if a.toNat < b.toNat then true
      else if b.toNat < a.toNat then false
      else charListLt as bs

/-- Strict SQLite TEXT comparison on strings. -/
def strLt (a b : String) : Bool :=
  charListLt a.data b.data

/-- Non-strict SQLite TEXT comparison on strings. -/
def strLe (a b : String) : Bool :=
  !(strLt b a)

/-- The WHERE clause shared by api_book, api_books and _filter_ids_for_book:
date(p.date_taken) between date(start_date) and date(end_date), inclusive. -/
def inRange (book : BookRecord) (r : PhotoRecord) : Bool :=
  strLe (dateOnly book.start_date) (dateOnly r.date_taken) &&
    strLe (dateOnly r.date_taken) (dateOnly book.end_date)

/-- SELECT * FROM books WHERE id = ? (used by _get_book_or_404). -/
def findBook (cat : Catalog) (bookId : String) : Option BookRecord :=
  cat.books.find? (fun b => b.id == bookId)

/-- COALESCE(s.selected, 0) = 1 for the LEFT JOIN of selections on
(book_id, photo_id): the photo carries a selected selection row. -/
def isSelected (cat : Catalog) (bookId : String) (pid : Int) : Bool :=
  cat.selections.any (fun s => s.book_id == bookId && s.photo_id == pid && s.selected)

/-- The ORDER BY key of api_book: date_taken ascending, then id ascending. -/
def photoLe (a b : PhotoRecord) : Bool :=
  strLt a.date_taken b.date_taken ||
    (a.date_taken == b.date_taken && decide (a.id ≤ b.id))

/-- Insertion of an element into a list sorted by le, keeping it sorted. -/
def insertSorted {α : Type} (le : α → α → Bool) (a : α) : List α → List α
  | [] => [a]
  | b :: l => if le a b then a :: b :: l else b :: insertSorted le a l

/-- Structurally recursive sort by the boolean relation le, used as the
embedding of the SQL ORDER BY clause (SQL only promises a sorted
permutation of the result set; on the total key used here the sorted
permutation is unique). -/
def sortBy {α : Type} (le : α → α → Bool) : List α → List α
  | [] => []
  | a :: l => insertSorted le a (sortBy le l)

/-- The rows of the photos table satisfying the WHERE clause of api_book:
capture date within the book range, and, when selected_only is set,
carrying a selected selection row for the book. -/
def bookPool (cat : Catalog) (bookId : String) (book : BookRecord)
    (selectedOnly : Bool) : List PhotoRecord :=
  cat.photos.filter (fun r => inRange book r && (!selectedOnly || isSelected cat bookId r.id))

/-- The pool ordered by the ORDER BY clause of api_book. -/
def bookSorted (cat : Catalog) (bookId : String) (book : BookRecord)
    (selectedOnly : Bool) : List PhotoRecord :=
  sortBy photoLe (bookPool cat bookId book selectedOnly)

/-- Python Path(...).name — the part of the path after the final slash. -/
def baseName (s : String) : String :=
  (s.splitOn "/").getLastD s

/-- One photo entry of the api_book response. -/
structure PageItem where
  id : Int
  thumbnail : String
  selected : Bool
  dateTaken : String
deriving DecidableEq, Repr

/-- The api_book response body. -/
structure BookPage where
  photos : List PageItem
  selectedCount : Nat
  totalPhotos : Nat
  offset : Nat
  limit : Nat
  hasMore : Bool
deriving DecidableEq, Repr

/-- Page-item projection applied to a photos row by api_book. -/
def pageItemOf (cat : Catalog) (bookId : String) (r : PhotoRecord) : PageItem :=
  PageItem.mk r.id (baseName r.thumbnail_path) (isSelected cat bookId r.id)
    (r.date_taken.take 10)

/-- The body of api_book once the book row has been resolved: count the
pool, take the LIMIT/OFFSET window of the ordered pool, keep only rows
with a non-empty thumbnail reference (the Python truthiness filter in the
list comprehension), and report has_more as offset plus the returned page
length being short of the total count. -/
def bookPage (cat : Catalog) (bookId : String) (book : BookRecord)
    (offset limit : Nat) (selectedOnly : Bool) : BookPage :=
  let pool := bookPool cat bookId book selectedOnly
  let sorted := sortBy photoLe (bookPool cat bookId book selectedOnly)
  let pageRows := (sorted.drop offset).take limit
  let photos := (pageRows.filter (fun r => r.thumbnail_path != "")).map
    (pageItemOf cat bookId)
  let selectedCount :=
    (cat.selections.filter (fun s => s.book_id == bookId && s.selected)).length
  BookPage.mk photos selectedCount pool.length offset limit
    (decide (offset + photos.length < pool.length))

/-- GET /api/book/(book_id): resolve the book or fail with 404, then build
the page. -/
def apiBook (cat : Catalog) (bookId : String) (offset limit : Nat)
    (selectedOnly : Bool) : Except Nat BookPage :=
  match findBook cat bookId with
  | none => Except.error 404
  | some book => Except.ok (bookPage cat bookId book offset limit selectedOnly)

/-- Concatenation of the pages f 0, f 1, ..., f (n-1), in order. -/
def concatPages {α : Type} (f : Nat → List α) : Nat → List α
  | 0 => []
  | n + 1 => concatPages f n ++ f n

/-- Helper for _normalize_id_list: first-occurrence de-duplication, as
performed by dict.fromkeys. -/
def dedupFirstAux (seen : List Int) : List Int → List Int
  | [] => []
  | x :: xs =>
      if seen.contains x then dedupFirstAux seen xs
      else x :: dedupFirstAux (x :: seen) xs

/-- The _normalize_id_list helper: each payload entry either parses with
int(...) (modelled some n) or raises and is silently dropped (none); the
surviving ids are de-duplicated keeping first occurrences. -/
def normalizeIdList (ids : List (Option Int)) : List Int :=
  dedupFirstAux [] (ids.filterMap id)

/-- The _filter_ids_for_book helper: keep the ids of photos rows whose id is
in the given list and whose capture date lies within the book range. -/
def filterIdsForBook (cat : Catalog) (book : BookRecord) (ids : List Int) : List Int :=
  if ids.isEmpty then []
  else (cat.photos.filter (fun r => ids.contains r.id && inRange book r)).map
    (fun r => r.id)

/-- INSERT INTO selections ... ON CONFLICT(book_id, photo_id) DO UPDATE:
update the selected flag and timestamp of the existing row for the key,
or append a fresh row. -/
def upsertSelection (sel : List SelectionRecord) (bookId : String) (pid : Int)
    (selected : Bool) (now : String) : List SelectionRecord :=
  if sel.any (fun s => s.book_id == bookId && s.photo_id == pid) then
    sel.map (fun s =>
      if s.book_id == bookId && s.photo_id == pid then
        { s with selected := selected, updated_at := now }
      else s)
  else sel ++ [SelectionRecord.mk bookId pid selected now]

/-- PUT /api/book/(book_id)/selection: normalize the payload ids, return
early with updated = 0 on an empty list, otherwise resolve the book
(404 when absent), restrict the ids to the book range, and upsert one
selection row per surviving id.  Returns the new catalog and the applied
count. -/
def updateSelection (cat : Catalog) (bookId : String) (rawIds : List (Option Int))
    (selected : Bool) (now : String) : Except Nat (Catalog × Nat) :=
  let ids := normalizeIdList rawIds
  if ids.isEmpty then Except.ok (cat, 0)
  else
    match findBook cat bookId with
    | none => Except.error 404
    | some book =>
        let validIds := filterIdsForBook cat book ids
        let sel := validIds.foldl
          (fun acc pid => upsertSelection acc bookId pid selected now) cat.selections
        Except.ok ({ cat with selections := sel }, validIds.length)

/-- The accumulator of the os.walk loop of index_photos: the current photos
table, the next free id, the observed paths, and the run counters. -/
structure WalkAcc where
  photos : List PhotoRecord
  nextId : Int
  seen : List String
  newC : Nat
  updC : Nat
  idxC : Nat
  errC : Nat
deriving DecidableEq, Repr

/-- The body of the os.walk loop of index_photos for one supported file:
record the path as seen, then stat it (a failure counts an error and skips
the file); a path absent from the existing snapshot is inserted with an
empty thumbnail reference and counts as new; a known path is re-checked
with force OR mtime/size difference, and when changed its date is
re-extracted, its thumbnail reference reset and mtime/size updated in
place, counting as updated. -/
def walkStep (existing : List PhotoRecord) (force : Bool) (acc0 : WalkAcc)
    (f : FsFile) : WalkAcc :=
  let acc := { acc0 with seen := acc0.seen ++ [f.path] }
  match f.stat with
  | none => { acc with errC := acc.errC + 1 }
  | some (mt, sz) =>
    match existing.find? (fun r => r.file_path == f.path) with
    | none =>
        { acc with
            photos := acc.photos ++ [PhotoRecord.mk acc.nextId f.path f.dateTaken "" mt sz],
            nextId := acc.nextId + 1,
            newC := acc.newC + 1,
            idxC := acc.idxC + 1 }
    | some row =>
        if force || !(row.file_mtime == mt) || !(row.file_size == sz) then
          { acc with
              photos := acc.photos.map (fun r =>
                if r.id == row.id then
                  { r with date_taken := f.dateTaken, thumbnail_path := "",
                           file_mtime := mt, file_size := sz }
                else r),
              updC := acc.updC + 1,
              idxC := acc.idxC + 1 }
        else acc

/-- The full os.walk loop of index_photos over the supported files. -/
def walk (existing : List PhotoRecord) (force : Bool) :
    List FsFile → WalkAcc → WalkAcc
  | [], acc => acc
  | f :: fs, acc => walk existing force fs (walkStep existing force acc f)

/-- The stored thumbnail reference for a photo id, THUMB_DIR joined with the
id and a .jpg suffix. -/
def thumbName (pid : Int) : String :=
  "thumbs/" ++ toString pid ++ ".jpg"

/-- One iteration of the thumbnail backfill pass of index_photos, for one
fetched row with an empty thumbnail reference: a source file that no longer
exists is skipped; otherwise a successful make_thumb stores the reference
and a failure counts an error and leaves the reference empty. -/
def backfillStep (fs : List FsFile) (acc : List PhotoRecord × Nat)
    (row : PhotoRecord) : List PhotoRecord × Nat :=
  if fs.any (fun f => f.path == row.file_path) then
    if (match fs.find? (fun f => f.path == row.file_path) with
        | some f => f.thumbOk
        | none => false) then
      (acc.1.map (fun r =>
        if r.id == row.id then { r with thumbnail_path := thumbName row.id } else r),
       acc.2)
    else (acc.1, acc.2 + 1)
  else acc

/-- The thumbnail backfill pass of index_photos: fetch the rows with an
empty thumbnail reference, then process each against the current table. -/
def backfill (fs : List FsFile) (photos : List PhotoRecord) (errs : Nat) :
    List PhotoRecord × Nat :=
  (photos.filter (fun r => r.thumbnail_path == "")).foldl (backfillStep fs) (photos, errs)

/-- The result of one index_photos run: the catalog it leaves behind and the
job state it publishes. -/
structure IndexOutcome where
  catalog : Catalog
  js : IndexJobState
deriving DecidableEq, Repr

/-- The walk accumulator produced by the os.walk loop of one run, started
from the photos snapshot with zeroed counters. -/
def walkOut (force : Bool) (fs : List FsFile) (cat : Catalog) : WalkAcc :=
  walk cat.photos force fs (WalkAcc.mk cat.photos cat.nextId [] 0 0 0 0)

/-- The missing_paths list of a run: snapshot paths never observed during
the walk. -/
def missingOf (force : Bool) (fs : List FsFile) (cat : Catalog) : List String :=
  (cat.photos.map (fun r => r.file_path)).filter
    (fun p => !(walkOut force fs cat).seen.contains p)

/-- The ids of the current rows whose path is missing, as selected by the
subquery of the cascading selections delete. -/
def missingIdsOf (force : Bool) (fs : List FsFile) (cat : Catalog) : List Int :=
  ((walkOut force fs cat).photos.filter
    (fun r => (missingOf force fs cat).contains r.file_path)).map (fun r => r.id)

/-- The photos table after deleting the rows with a missing path. -/
def photosAfterRemoval (force : Bool) (fs : List FsFile) (cat : Catalog) :
    List PhotoRecord :=
  (walkOut force fs cat).photos.filter
    (fun r => !(missingOf force fs cat).contains r.file_path)

/-- The body of an index_photos run once the photo root is known to exist:
snapshot the photos table, walk the supported files, delete the records
whose path was not observed together with their selection rows (counting
them as removed), backfill missing thumbnails, and publish a complete
state carrying the final counters. -/
def indexPhotosRun (force : Bool) (now : String) (fs : List FsFile)
    (cat : Catalog) (js : IndexJobState) : IndexOutcome :=
  IndexOutcome.mk
    (Catalog.mk
      (backfill fs (photosAfterRemoval force fs cat) (walkOut force fs cat).errC).1
      cat.books
      (cat.selections.filter
        (fun s => !(missingIdsOf force fs cat).contains s.photo_id))
      (walkOut force fs cat).nextId)
    { js with phase := JobPhase.complete, finishedAt := some now,
              indexed := (walkOut force fs cat).idxC,
              new := (walkOut force fs cat).newC,
              updated := (walkOut force fs cat).updC,
              removed := (missingOf force fs cat).length,
              errors := (backfill fs (photosAfterRemoval force fs cat)
                (walkOut force fs cat).errC).2,
              message := "Index complete" }

/-- The index_photos reconciliation run.  A missing photo root publishes an
error state and returns before any walk or catalog access; otherwise the
run proceeds as indexPhotosRun. -/
def indexPhotos (force rootExists : Bool) (now : String) (fs : List FsFile)
    (cat : Catalog) (js : IndexJobState) : IndexOutcome :=
  if !rootExists then
    IndexOutcome.mk cat
      { js with phase := JobPhase.error, finishedAt := some now,
                message := "PHOTO_ROOT does not exist" }
  else indexPhotosRun force now fs cat js

/-- The start_indexing endpoint body: under the index lock, a running state
returns false without touching the state; otherwise the state is reset to a
fresh running snapshot with zeroed counters and the background run is
launched, returning true. -/
def startIndexing (now : String) (s : IndexJobState) : Bool × IndexJobState :=
  if s.phase = JobPhase.running then (false, s)
  else
    (true,
     IndexJobState.mk JobPhase.running (some now) none 0 0 0 0 0 "Indexing...")

/-- The _run_index_in_background wrapper: a normal return of index_photos
publishes whatever state the run left; an uncaught exception is converted
to an error state carrying the exception text, and never escapes. -/
def runIndexInBackground (outcome : Except String IndexOutcome) (now : String)
    (cat : Catalog) (js : IndexJobState) : Catalog × IndexJobState :=
  match outcome with
  | Except.ok o => (o.catalog, o.js)
  | Except.error exc =>
      (cat, { js with phase := JobPhase.error, finishedAt := some now,
                      message := "Index failed: " ++ exc })

/-- Every mutation of the process-wide _index_state dictionary performed by
the source: the start_indexing reset, the per-batch progress update of
_flush_batch, the thumbnail progress message, the final completion update,
the missing-root error, and the background exception handler.  All writes
happen under _index_lock, so the interleaving of a concurrent execution is
some sequence of these steps. -/
inductive JobStep : IndexJobState → IndexJobState → Prop where
  | start (now : String) (s : IndexJobState) :
      JobStep s (startIndexing now s).2
  | flushProgress (s : IndexJobState) (i n u e : Nat) (msg : String) :
      JobStep s { s with indexed := i, new := n, updated := u, errors := e,
                         message := msg }
  | thumbProgress (s : IndexJobState) (msg : String) :
      JobStep s { s with message := msg }
  | finishComplete (s : IndexJobState) (now : String) (i n u r e : Nat) :
      JobStep s { s with phase := JobPhase.complete, finishedAt := some now,
                         indexed := i, new := n, updated := u, removed := r,
                         errors := e, message := "Index complete" }
  | missingRoot (s : IndexJobState) (now msg : String) :
      JobStep s { s with phase := JobPhase.error, finishedAt := some now,
                         message := msg }
  | backgroundFailure (s : IndexJobState) (now exc : String) :
      JobStep s { s with phase := JobPhase.error, finishedAt := some now,
                         message := "Index failed: " ++ exc }

/-- Terminal observable of one export_zip call. -/
inductive ExportTerm where
  | httpError (code : Nat)
  | exceptionDuringZip
  | delivered (fileName : String)
deriving DecidableEq, Repr

/-- Outcome of export_zip together with the lifecycle of the temporary
archive file: whether it was created, and whether its deletion was
scheduled (the background task registered after a fully built archive,
which removes the file once the response has been delivered). -/
structure ExportOutcome where
  term : ExportTerm
  tmpCreated : Bool
  tmpDeletionScheduled : Bool
deriving DecidableEq, Repr

/-- Zero-padded month formatting used in the suggested archive name. -/
def monthPad (m : Int) : String :=
  if 0 ≤ m && m < 10 then "0" ++ toString m else toString m

/-- The export_zip endpoint body: resolve the book (404), restrict the
explicit ids (or, with no explicit ids, the currently selected ids) to the
book range, fail with 400 when nothing survives, resolve the surviving ids
to stored paths and drop the ones no longer on disk (400 when none is
left), then create the temporary archive file and write every surviving
source into it.  A write failure raises out of the handler with the
temporary file left on disk; on success the deletion of the temporary file
is scheduled to follow delivery. -/
def exportZip (cat : Catalog) (fs : List FsFile) (bookId : String)
    (rawIds : List (Option Int)) : ExportOutcome :=
  let ids := normalizeIdList rawIds
  match findBook cat bookId with
  | none => ExportOutcome.mk (ExportTerm.httpError 404) false false
  | some book =>
    let validIds :=
      if !ids.isEmpty then filterIdsForBook cat book ids
      else
        filterIdsForBook cat book
          ((cat.selections.filter (fun s => s.book_id == bookId && s.selected)).map
            (fun s => s.photo_id))
    if validIds.isEmpty then ExportOutcome.mk (ExportTerm.httpError 400) false false
    else
      let files := (cat.photos.filter (fun r => validIds.contains r.id)).map
        (fun r => r.file_path)
      let existingFiles := files.filter (fun p => fs.any (fun f => f.path == p))
      if existingFiles.isEmpty then
        ExportOutcome.mk (ExportTerm.httpError 400) false false
      else
        let fileName := book.child ++ "_Month_" ++ monthPad book.month ++ "_" ++
          book.start_date ++ "_to_" ++ book.end_date ++ ".zip"
        if existingFiles.all (fun p =>
            match fs.find? (fun f => f.path == p) with
            | some f => f.zipOk
            | none => false) then
          ExportOutcome.mk (ExportTerm.delivered fileName) true true
        else
          ExportOutcome.mk ExportTerm.exceptionDuringZip true false

/-- Sample book covering January 2024, used by the api_book counterexample
and witness. -/
def book1 : BookRecord :=
  BookRecord.mk "b1" "kid" 1 "2024-01-01" "2024-01-31" false

/-- Sample photo inside the range of book1 whose thumbnail reference is
still empty (a pending-thumbnail record). -/
def photoNoThumb : PhotoRecord :=
  PhotoRecord.mk 1 "root/a.jpg" "2024-01-10T00:00:00" "" 5 6

/-- Catalog holding book1 and the pending-thumbnail photo. -/
def cat1 : Catalog :=
  Catalog.mk [photoNoThumb] [book1] [] 2

/-- Catalog holding book1 and two thumbnailed in-range photos. -/
def cat1w : Catalog :=
  Catalog.mk
    [PhotoRecord.mk 1 "root/a.jpg" "2024-01-10T00:00:00" "thumbs/1.jpg" 5 6,
     PhotoRecord.mk 2 "root/b.jpg" "2024-01-11T00:00:00" "thumbs/2.jpg" 7 8]
    [book1] [] 3

/-- Sample book for the selection-scoping claim. -/
def book2 : BookRecord :=
  BookRecord.mk "b1" "kid" 1 "2024-01-01" "2024-01-31" false

/-- Sample photo dated outside the range of book2. -/
def photoOut : PhotoRecord :=
  PhotoRecord.mk 1 "root/a.jpg" "2024-02-05T00:00:00" "thumbs/1.jpg" 5 6

/-- Catalog where the out-of-range photo already carries a selection row
for book2 (a state the reconciliation can produce by re-extracting a
changed capture date without pruning selections). -/
def cat2 : Catalog :=
  Catalog.mk [photoOut] [book2] [SelectionRecord.mk "b1" 1 true "t0"] 2

/-- Sample book for the export claim. -/
def book8 : BookRecord :=
  BookRecord.mk "b1" "kid" 1 "2024-01-01" "2024-01-31" false

/-- Sample selected in-range photo for the export claim. -/
def photo8 : PhotoRecord :=
  PhotoRecord.mk 1 "root/a.jpg" "2024-01-10T10:00:00" "thumbs/1.jpg" 5 6

/-- Catalog with one selected in-range photo for book8. -/
def cat8 : Catalog :=
  Catalog.mk [photo8] [book8] [SelectionRecord.mk "b1" 1 true "t0"] 2

/-- Filesystem where the selected source file exists but writing it into
the archive raises (e.g. the file disappears between the existence check
and the write, or the disk fills up). -/
def fs8 : List FsFile :=
  [FsFile.mk "root/a.jpg" (some (5, 6)) "2024-01-10T10:00:00" true false]

/-- Known photos row for the change-detection witness. -/
def c4row : PhotoRecord :=
  PhotoRecord.mk 1 "root/a.jpg" "2024-01-10T00:00:00" "thumbs/1.jpg" 5 6

/-- Walk accumulator holding the single known row. -/
def c4acc : WalkAcc :=
  WalkAcc.mk [c4row] 2 [] 0 0 0 0

/-- Walked file at the known path whose size changed from 6 to 7. -/
def c4file : FsFile :=
  FsFile.mk "root/a.jpg" (some (5, 7)) "2024-01-12T00:00:00" true true

/-- One entry of the books.json array after the JSON boundary: hasRequired
models the presence of all five required keys; the str(...) conversions of
id and child are applied; monthVal, startVal and endVal are some value when
the int(...) respectively datetime.strptime(..., a date format) conversion
succeeds (startVal/endVal normalized back to ISO date strings), none when
it raises. -/
structure RawBook where
  hasRequired : Bool
  id : String
  child : String
  monthVal : Option Int
  startVal : Option String
  endVal : Option String
deriving DecidableEq, Repr

/-- A validated books.json entry, as appended to valid_books. -/
structure ValidBook where
  id : String
  child : String
  month : Int
  start_date : String
  end_date : String
deriving DecidableEq, Repr

/-- The validation loop of load_books, carrying the seen_ids set: skip an
entry missing required fields, with an empty id, with a duplicate id, with
an unparsable month or date, with a month outside 1..12, or with
start_date after end_date; otherwise record the id as seen and keep the
entry. -/
def validateBooksAux (seen : List String) : List RawBook → List ValidBook
  | [] => []
  | item :: rest =>
      if !item.hasRequired then validateBooksAux seen rest
      else if item.id == "" then validateBooksAux seen rest
      else if seen.contains item.id then validateBooksAux seen rest
      else
        match item.monthVal, item.startVal, item.endVal with
        | some m, some sd, some ed =>
            if !(decide (1 ≤ m) && decide (m ≤ 12)) then validateBooksAux seen rest
            else if strLt ed sd then validateBooksAux seen rest
            else ValidBook.mk item.id item.child m sd ed ::
              validateBooksAux (item.id :: seen) rest
        | _, _, _ => validateBooksAux seen rest

/-- The valid_books list computed by load_books. -/
def validateBooks (entries : List RawBook) : List ValidBook :=
  validateBooksAux [] entries

/-- INSERT INTO books ... ON CONFLICT(id) DO UPDATE SET child, month,
start_date, end_date: the conflicting row keeps its completed flag, a
fresh row gets the schema default completed = 0. -/
def upsertBook (tbl : List BookRecord) (vb : ValidBook) : List BookRecord :=
  if tbl.any (fun b => b.id == vb.id) then
    tbl.map (fun b =>
      if b.id == vb.id then
        { b with child := vb.child, month := vb.month,
                 start_date := vb.start_date, end_date := vb.end_date }
      else b)
  else
    tbl ++ [BookRecord.mk vb.id vb.child vb.month vb.start_date vb.end_date false]

/-- The database half of load_books: upsert every validated entry into the
books table, in order. -/
def loadBooksApply (entries : List RawBook) (tbl : List BookRecord) : List BookRecord :=
  (validateBooks entries).foldl upsertBook tbl

/-- Books table for the load_books witness: the stored book b1 is marked
completed. -/
def c9tbl : List BookRecord :=
  [BookRecord.mk "b1" "old" 2 "2023-01-01" "2023-02-01" true]

/-- Reloaded configuration entry for book b1 with fresh fields. -/
def c9raw : RawBook :=
  RawBook.mk true "b1" "kid" (some 1) (some "2024-01-01") (some "2024-01-31")


/-- Catalog for the deletion-cascade witness: one stored photo whose file
is gone, carrying a selection row. -/
def cat6 : Catalog :=
  Catalog.mk [PhotoRecord.mk 1 "root/gone.jpg" "2024-01-10T00:00:00" "thumbs/1.jpg" 5 6]
    [] [SelectionRecord.mk "b1" 1 true "t0"] 2

/-- A running job state used by the reconciliation witnesses. -/
def jsRun : IndexJobState :=
  IndexJobState.mk JobPhase.running (some "t1") none 0 0 0 0 0 "Indexing..."

/-- Filesystem for the idempotence witness: one supported file. -/
def fs5 : List FsFile :=
  [FsFile.mk "root/a.jpg" (some (10, 20)) "2024-01-10T00:00:00" true true]

/-- Empty catalog for the idempotence witness. -/
def cat5 : Catalog :=
  Catalog.mk [] [] [] 1


/-- C10: for every book id (including ids with no BookRecord), a selection
update whose payload ids normalize to the empty list returns ok with
updated = 0, changes nothing, and raises no not-found error: the book
lookup is only reached when at least one numeric id survives
normalization. -/
theorem claim_c10 (cat : Catalog) (bookId : String) (rawIds : List (Option Int))
    (selected : Bool) (now : String)
    (h : normalizeIdList rawIds = []) :
    updateSelection cat bookId rawIds selected now = Except.ok (cat, 0) := by
  unfold updateSelection
  simp [h]

/-- Witness for claim_c10: a catalog without the requested book and a
payload of two non-numeric ids. -/
theorem claim_c10_witness :
    updateSelection (Catalog.mk [] [] [] 1) "b1" [none, none] true "t" =
      Except.ok (Catalog.mk [] [] [] 1, 0) :=
  claim_c10 _ _ _ _ _ (by decide)

/-- C3: a start request while the job state is running returns false and
leaves the state untouched; and across every state mutation the source
performs, the running phase is only ever entered from idle, complete or
error, via the startIndexing reset itself (which then returns true). -/
theorem claim_c3 :
    (∀ (now : String) (s : IndexJobState), s.phase = JobPhase.running →
        startIndexing now s = (false, s)) ∧
    (∀ s s₂ : IndexJobState, JobStep s s₂ → s.phase ≠ JobPhase.running →
        s₂.phase = JobPhase.running →
        (s.phase = JobPhase.idle ∨ s.phase = JobPhase.complete ∨
            s.phase = JobPhase.error) ∧
        ∃ now, s₂ = (startIndexing now s).2 ∧ (startIndexing now s).1 = true) := by
  constructor
  · intro now s h
    simp [startIndexing, h]
  · intro s s₂ hstep hne hrun
    constructor
    · cases hph : s.phase
      · exact Or.inl rfl
      · exact absurd hph hne
      · exact Or.inr (Or.inl rfl)
      · exact Or.inr (Or.inr rfl)
    · cases hstep with
      | start now s => exact ⟨now, rfl, by simp [startIndexing, hne]⟩
      | flushProgress s i n u e msg => exact absurd hrun hne
      | thumbProgress s msg => exact absurd hrun hne
      | finishComplete s now i n u r e => simp at hrun
      | missingRoot s now msg => simp at hrun
      | backgroundFailure s now exc => simp at hrun

/-- Witness for claim_c3: starting while a run is in flight is refused and
changes nothing. -/
theorem claim_c3_witness :
    startIndexing "t1"
        (IndexJobState.mk JobPhase.running (some "t0") none 0 0 0 0 0 "Indexing...") =
      (false,
       IndexJobState.mk JobPhase.running (some "t0") none 0 0 0 0 0 "Indexing...") :=
  claim_c3.1 "t1" _ rfl

/-- C7: a run started when the photo root is missing publishes an error
state with a finish timestamp and message and returns with the catalog
untouched, before any walk; and the background wrapper converts any
uncaught exception into an error state carrying the exception text instead
of crashing. -/
theorem claim_c7 :
    (∀ (force : Bool) (now : String) (fs : List FsFile) (cat : Catalog)
        (js : IndexJobState),
        indexPhotos force false now fs cat js =
          IndexOutcome.mk cat
            { js with phase := JobPhase.error, finishedAt := some now,
                      message := "PHOTO_ROOT does not exist" }) ∧
    (∀ (exc now : String) (cat : Catalog) (js : IndexJobState),
        runIndexInBackground (Except.error exc) now cat js =
          (cat, { js with phase := JobPhase.error, finishedAt := some now,
                          message := "Index failed: " ++ exc })) :=
  ⟨fun _ _ _ _ _ => rfl, fun _ _ _ _ => rfl⟩

/-- C8: at the concrete failing input (one selected in-range photo whose
source file exists but whose archive write raises) export_zip creates the
temporary archive file, raises out of the handler, and never schedules the
temporary file for deletion — the claimed every-exit-path cleanup does not
hold in the code. -/
theorem claim_c8 :
    (exportZip cat8 fs8 "b1" []).term = ExportTerm.exceptionDuringZip ∧
    (exportZip cat8 fs8 "b1" []).tmpCreated = true ∧
    (exportZip cat8 fs8 "b1" []).tmpDeletionScheduled = false := by
  decide

/-- C4: for a walked file whose path already has a PhotoRecord, the record
is classified unchanged exactly when force is off and both stored mtime and
stored size match the current stat, in which case the step only records the
observed path; otherwise the step re-extracts the capture date, resets the
thumbnail reference, updates mtime/size on the record, and increments the
updated counter, never the new counter. -/
theorem claim_c4 (existing : List PhotoRecord) (force : Bool) (acc : WalkAcc)
    (f : FsFile) (mt sz : Int) (row : PhotoRecord)
    (hstat : f.stat = some (mt, sz))
    (hrow : existing.find? (fun r => r.file_path == f.path) = some row) :
    ((force = false ∧ row.file_mtime = mt ∧ row.file_size = sz) →
        walkStep existing force acc f = { acc with seen := acc.seen ++ [f.path] }) ∧
    ((force = true ∨ row.file_mtime ≠ mt ∨ row.file_size ≠ sz) →
        (walkStep existing force acc f).newC = acc.newC ∧
        (walkStep existing force acc f).updC = acc.updC + 1 ∧
        (∀ r ∈ acc.photos, r.id = row.id →
            { r with date_taken := f.dateTaken, thumbnail_path := "",
                     file_mtime := mt, file_size := sz } ∈
              (walkStep existing force acc f).photos) ∧
        (∀ r ∈ acc.photos, r.id ≠ row.id →
            r ∈ (walkStep existing force acc f).photos)) := by
  constructor
  · rintro ⟨hf, hm, hs⟩
    subst hf hm hs
    simp [walkStep, hstat, hrow]
  · intro h
    have hcond : (force || !(row.file_mtime == mt) || !(row.file_size == sz)) = true := by
      rcases h with h | h | h
      · simp [h]
      · simp [bne, beq_iff_eq, h]
      · simp [bne, beq_iff_eq, h]
    refine ⟨?_, ?_, ?_, ?_⟩
    · simp [walkStep, hstat, hrow, hcond]
    · simp [walkStep, hstat, hrow, hcond]
    · intro r hr hid
      have hmem := List.mem_map_of_mem (fun r : PhotoRecord =>
          if r.id == row.id then
            { r with date_taken := f.dateTaken, thumbnail_path := "",
                     file_mtime := mt, file_size := sz }
          else r) hr
      simpa [walkStep, hstat, hrow, hcond, hid] using hmem
    · intro r hr hid
      have hmem := List.mem_map_of_mem (fun r : PhotoRecord =>
          if r.id == row.id then
            { r with date_taken := f.dateTaken, thumbnail_path := "",
                     file_mtime := mt, file_size := sz }
          else r) hr
      simpa [walkStep, hstat, hrow, hcond, hid] using hmem

/-- Witness for claim_c4: a size change from 6 to 7 on a known path counts
as updated, never as new. -/
theorem claim_c4_witness :
    (walkStep [c4row] false c4acc c4file).newC = c4acc.newC ∧
    (walkStep [c4row] false c4acc c4file).updC = c4acc.updC + 1 := by
  have h := (claim_c4 [c4row] false c4acc c4file 5 7 c4row rfl (by decide)).2
    (Or.inr (Or.inr (by decide)))
  exact ⟨h.1, h.2.1⟩

/-- Rows for a photo id other than the upserted one pass through an upsert
unchanged (forward direction: no such row appears). -/
theorem upsertSelection_mem_ne_forward (sel : List SelectionRecord)
    (bookId : String) (pid : Int) (selected : Bool) (now : String) (x : Int)
    (h : pid ≠ x) :
    ∀ s ∈ upsertSelection sel bookId pid selected now, s.photo_id = x → s ∈ sel := by
  intro s hs hx
  unfold upsertSelection at hs
  by_cases hany : (sel.any (fun s => s.book_id == bookId && s.photo_id == pid)) = true
  · rw [if_pos hany] at hs
    rcases List.mem_map.1 hs with ⟨s₀, hs₀, heq⟩
    by_cases hg : (s₀.book_id == bookId && s₀.photo_id == pid) = true
    · exfalso
      rw [if_pos hg] at heq
      obtain ⟨hb, hpd⟩ : s₀.book_id = bookId ∧ s₀.photo_id = pid := by
        simpa using hg
      have : s.photo_id = s₀.photo_id := by rw [← heq]
      exact h (by rw [← hx, this, hpd])
    · rw [if_neg hg] at heq
      exact heq ▸ hs₀
  · rw [if_neg hany] at hs
    rcases List.mem_append.1 hs with h1 | h1
    · exact h1
    · exfalso
      have : s = SelectionRecord.mk bookId pid selected now := by simpa using h1
      exact h (by rw [← hx, this])
  
/-- Rows for a photo id other than the upserted one pass through an upsert
unchanged (backward direction: no such row disappears or changes). -/
theorem upsertSelection_mem_ne_backward (sel : List SelectionRecord)
    (bookId : String) (pid : Int) (selected : Bool) (now : String) (x : Int)
    (h : pid ≠ x) :
    ∀ s ∈ sel, s.photo_id = x → s ∈ upsertSelection sel bookId pid selected now := by
  intro s hs hx
  unfold upsertSelection
  split
  · refine List.mem_map.2 ⟨s, hs, ?_⟩
    have hguard : (s.book_id == bookId && s.photo_id == pid) = false := by
      simp [hx]
      intro _
      exact Ne.symm h
    simp [hguard]
  · exact List.mem_append_left _ hs

/-- Folding upserts over ids that all differ from x preserves the rows with
photo id x (forward direction). -/
theorem foldlUpsert_mem_forward (bookId : String) (selected : Bool)
    (now : String) (x : Int) :
    ∀ (pids : List Int), (∀ q ∈ pids, q ≠ x) → ∀ (sel : List SelectionRecord),
      ∀ s ∈ pids.foldl (fun acc pid => upsertSelection acc bookId pid selected now) sel,
        s.photo_id = x → s ∈ sel := by
  intro pids
  induction pids with
  | nil => intro _ sel s hs _; exact hs
  | cons q rest ih =>
      intro hq sel s hs hx
      have h1 := ih (fun a ha => hq a (List.mem_cons_of_mem q ha)) _ s hs hx
      exact upsertSelection_mem_ne_forward sel bookId q selected now x
        (hq q (List.mem_cons_self q rest)) s h1 hx

/-- Folding upserts over ids that all differ from x preserves the rows with
photo id x (backward direction). -/
theorem foldlUpsert_mem_backward (bookId : String) (selected : Bool)
    (now : String) (x : Int) :
    ∀ (pids : List Int), (∀ q ∈ pids, q ≠ x) → ∀ (sel : List SelectionRecord),
      ∀ s ∈ sel, s.photo_id = x →
        s ∈ pids.foldl (fun acc pid => upsertSelection acc bookId pid selected now) sel := by
  intro pids
  induction pids with
  | nil => intro _ sel s hs _; exact hs
  | cons q rest ih =>
      intro hq sel s hs hx
      have h1 := upsertSelection_mem_ne_backward sel bookId q selected now x
        (hq q (List.mem_cons_self q rest)) s hs hx
      exact ih (fun a ha => hq a (List.mem_cons_of_mem q ha)) _ s h1 hx

/-- C2 counterexample: the catalog cat2 already carries a selection row for
the out-of-range photo; passing its id to the selection update leaves the
row in place (the call is a no-op on it, the applied count is 0), so after
the call a selections row for (book, photo) still exists even though the
photo's capture date lies outside the book range — refuting the claim that
no such row exists after the call. -/
theorem claim_c2_counterexample :
    updateSelection cat2 "b1" [some 1] true "t1" = Except.ok (cat2, 0) ∧
    inRange book2 photoOut = false ∧
    SelectionRecord.mk "b1" 1 true "t0" ∈ cat2.selections :=
  ⟨rfl, by decide, by decide⟩

/-- C2 (amended): an id whose photo has a capture date outside the book
range survives neither the range filter nor the upsert loop: it is excluded
from the applied count and no selections row for that photo is created,
modified or deleted by the call — in particular, if no row existed for
(book, photo) before the call, none exists after it.  (As stated the claim
fails only on states that already carry such a row, see the
counterexample.) -/
theorem claim_c2 (cat : Catalog) (bookId : String) (rawIds : List (Option Int))
    (selected : Bool) (now : String) (book : BookRecord) (p : PhotoRecord)
    (cat₂ : Catalog) (applied : Nat)
    (hbook : findBook cat bookId = some book)
    (hp : p ∈ cat.photos)
    (hout : inRange book p = false)
    (hids : (cat.photos.map (fun r => r.id)).Nodup)
    (hcall : updateSelection cat bookId rawIds selected now = Except.ok (cat₂, applied)) :
    p.id ∉ filterIdsForBook cat book (normalizeIdList rawIds) ∧
    (∀ s ∈ cat₂.selections, s.photo_id = p.id → s ∈ cat.selections) ∧
    (∀ s ∈ cat.selections, s.photo_id = p.id → s ∈ cat₂.selections) ∧
    applied = (filterIdsForBook cat book (normalizeIdList rawIds)).length := by
  have hnotin : p.id ∉ filterIdsForBook cat book (normalizeIdList rawIds) := by
    intro hmem
    unfold filterIdsForBook at hmem
    by_cases hemp : (normalizeIdList rawIds).isEmpty
    · rw [if_pos hemp] at hmem
      exact absurd hmem (List.not_mem_nil _)
    · rw [if_neg hemp] at hmem
      rcases List.mem_map.1 hmem with ⟨r, hr, hrid⟩
      rcases List.mem_filter.1 hr with ⟨hrmem, hrpred⟩
      have : r = p := List.inj_on_of_nodup_map hids hrmem hp hrid
      subst this
      rw [hout] at hrpred
      simp at hrpred
  refine ⟨hnotin, ?_⟩
  have hq : ∀ q ∈ filterIdsForBook cat book (normalizeIdList rawIds), q ≠ p.id := by
    intro q hqm hqe
    exact hnotin (hqe ▸ hqm)
  simp only [updateSelection] at hcall
  split at hcall
  · rename_i hemp
    have hpair := Except.ok.inj hcall
    rw [Prod.mk.injEq] at hpair
    obtain ⟨hA, hB⟩ := hpair
    subst hA
    subst hB
    refine ⟨fun s hs _ => hs, fun s hs _ => hs, ?_⟩
    unfold filterIdsForBook
    rw [if_pos hemp]
    rfl
  · rename_i hemp
    rw [hbook] at hcall
    have hpair := Except.ok.inj hcall
    rw [Prod.mk.injEq] at hpair
    obtain ⟨hA, hB⟩ := hpair
    subst hA
    subst hB
    refine ⟨?_, ?_, rfl⟩
    · intro s hs hx
      exact foldlUpsert_mem_forward bookId selected now p.id _ hq cat.selections s hs hx
    · intro s hs hx
      exact foldlUpsert_mem_backward bookId selected now p.id _ hq cat.selections s hs hx

/-- Witness for claim_c2: the out-of-range id 1 is excluded from the
applied set. -/
theorem claim_c2_witness :
    photoOut.id ∉ filterIdsForBook cat2 book2 (normalizeIdList [some 1]) :=
  (claim_c2 cat2 "b1" [some 1] true "t1" book2 photoOut cat2 0
    (by decide) (by decide) (by decide) (by decide) rfl).1

/-- List.contains on strings agrees with membership. -/
theorem containsStr_iff (l : List String) (a : String) :
    l.contains a = true ↔ a ∈ l := by
  simp [List.contains]

/-- List.contains on integers agrees with membership. -/
theorem containsInt_iff (l : List Int) (a : Int) :
    l.contains a = true ↔ a ∈ l := by
  simp [List.contains]

/-- Finding an element of a list by its key, under key uniqueness, returns
that element. -/
theorem find_key_of_mem_nodup {α β : Type} [BEq β] [LawfulBEq β] (key : α → β)
    (l : List α) (a : α) (hN : (l.map key).Nodup) (ha : a ∈ l) :
    l.find? (fun x => key x == key a) = some a := by
  induction l with
  | nil => exact absurd ha (List.not_mem_nil a)
  | cons c rest ih =>
      by_cases hc : (key c == key a) = true
      · simp only [List.find?_cons, hc]
        rcases List.mem_cons.1 ha with h | h
        · rw [h]
        · exfalso
          have hkey : key c = key a := by simpa using hc
          have : key a ∈ rest.map key := List.mem_map_of_mem key h
          rw [← hkey] at this
          exact (List.nodup_cons.1 hN).1 this
      · have hcf : (key c == key a) = false := by simpa using hc
        simp only [List.find?_cons, hcf]
        have ha2 : a ∈ rest := by
          rcases List.mem_cons.1 ha with h | h
          · exfalso
            exact hc (by rw [h, beq_self_eq_true])
          · exact h
        exact ih (List.nodup_cons.1 hN).2 ha2

/-- The validation loop produces entries with pairwise distinct ids, none
of them already seen. -/
theorem validateBooksAux_ids (entries : List RawBook) :
    ∀ seen : List String,
      ((validateBooksAux seen entries).map (fun v => v.id)).Nodup ∧
      ∀ v ∈ validateBooksAux seen entries, v.id ∉ seen := by
  induction entries with
  | nil => exact fun seen => ⟨List.nodup_nil, fun v hv => absurd hv (List.not_mem_nil v)⟩
  | cons item rest ih =>
      intro seen
      unfold validateBooksAux
      by_cases h1 : (!item.hasRequired) = true
      · rw [if_pos h1]; exact ih seen
      · rw [if_neg h1]
        by_cases h2 : (item.id == "") = true
        · rw [if_pos h2]; exact ih seen
        · rw [if_neg h2]
          by_cases h3 : (seen.contains item.id) = true
          · rw [if_pos h3]; exact ih seen
          · rw [if_neg h3]
            cases hm : item.monthVal with
            | none => exact ih seen
            | some m =>
                cases hs : item.startVal with
                | none => exact ih seen
                | some sd =>
                    cases he : item.endVal with
                    | none => exact ih seen
                    | some ed =>
                        dsimp only
                        by_cases h4 : (!(decide (1 ≤ m) && decide (m ≤ 12))) = true
                        · rw [if_pos h4]; exact ih seen
                        · rw [if_neg h4]
                          by_cases h5 : (strLt ed sd) = true
                          · rw [if_pos h5]; exact ih seen
                          · rw [if_neg h5]
                            obtain ⟨ihN, ihSeen⟩ := ih (item.id :: seen)
                            constructor
                            · rw [List.map_cons, List.nodup_cons]
                              refine ⟨?_, ihN⟩
                              intro hmem
                              rcases List.mem_map.1 hmem with ⟨v, hv, hvid⟩
                              exact ihSeen v hv (hvid ▸ List.mem_cons_self item.id seen)
                            · intro v hv hseen
                              rcases List.mem_cons.1 hv with h | h
                              · rw [h] at hseen
                                have hni : item.id ∉ seen := by
                                  simpa [containsStr_iff] using h3
                                exact hni hseen
                              · exact ihSeen v h (List.mem_cons_of_mem _ hseen)

/-- An upsert for one id leaves the lookup of any other id unchanged
(update branch, stated on the raw map). -/
theorem find_map_updateBook (tbl : List BookRecord) (vb : ValidBook) (x : String)
    (h : vb.id ≠ x) :
    (tbl.map (fun b =>
        if b.id == vb.id then
          { b with child := vb.child, month := vb.month,
                   start_date := vb.start_date, end_date := vb.end_date }
        else b)).find? (fun b => b.id == x) =
      tbl.find? (fun b => b.id == x) := by
  induction tbl with
  | nil => rfl
  | cons a rest ih =>
      rw [List.map_cons]
      by_cases hga : (a.id == vb.id) = true
      · have haid : a.id = vb.id := by simpa using hga
        have hpred2 : (a.id == x) = false := by simp [haid, h]
        rw [if_pos hga]
        simp only [List.find?_cons, hpred2]
        exact ih
      · rw [if_neg hga]
        by_cases hpx : (a.id == x) = true
        · simp only [List.find?_cons, hpx]
        · have hpxf : (a.id == x) = false := by simpa using hpx
          simp only [List.find?_cons, hpxf]
          exact ih

/-- An upsert for one id leaves the lookup of any other id unchanged. -/
theorem upsertBook_find_other (tbl : List BookRecord) (vb : ValidBook) (x : String)
    (h : vb.id ≠ x) :
    (upsertBook tbl vb).find? (fun b => b.id == x) =
      tbl.find? (fun b => b.id == x) := by
  unfold upsertBook
  split
  · exact find_map_updateBook tbl vb x h
  · rw [List.find?_append]
    cases hf : tbl.find? (fun b => b.id == x) with
    | some b => rfl
    | none =>
        have hff : (vb.id == x) = false := by simpa using h
        simp only [Option.none_or, List.find?_cons, List.find?_nil, hff]

/-- The ids of the validated books list are pairwise distinct. -/
theorem validateBooks_ids_nodup (entries : List RawBook) :
    ((validateBooks entries).map (fun v => v.id)).Nodup :=
  (validateBooksAux_ids entries []).1

/-- Mapping the conflict update over the table sends the lookup of the
upserted id to the merged row. -/
theorem find_map_updateBook_self (tbl : List BookRecord) (vb : ValidBook) :
    (tbl.map (fun b =>
        if b.id == vb.id then
          { b with child := vb.child, month := vb.month,
                   start_date := vb.start_date, end_date := vb.end_date }
        else b)).find? (fun b => b.id == vb.id) =
      (tbl.find? (fun b => b.id == vb.id)).map (fun b =>
        { b with child := vb.child, month := vb.month,
                 start_date := vb.start_date, end_date := vb.end_date }) := by
  induction tbl with
  | nil => rfl
  | cons a rest ih =>
      rw [List.map_cons]
      by_cases hga : (a.id == vb.id) = true
      · simp [List.find?_cons, hga]
      · have hgaf : (a.id == vb.id) = false := by simpa using hga
        simp only [List.find?_cons, hgaf, if_neg, Bool.false_eq_true, if_false]
        simpa [hgaf] using ih

/-- The lookup of the upserted id after an upsert: the merged conflicting
row when one existed, the freshly inserted row otherwise. -/
theorem upsertBook_find_self (tbl : List BookRecord) (vb : ValidBook) :
    (upsertBook tbl vb).find? (fun b => b.id == vb.id) =
      some (match tbl.find? (fun b => b.id == vb.id) with
            | some c => BookRecord.mk c.id vb.child vb.month vb.start_date
                vb.end_date c.completed
            | none => BookRecord.mk vb.id vb.child vb.month vb.start_date
                vb.end_date false) := by
  unfold upsertBook
  split
  · rename_i hany
    rw [find_map_updateBook_self]
    have hex : ∃ c, tbl.find? (fun b => b.id == vb.id) = some c := by
      rcases List.any_eq_true.1 hany with ⟨b₀, hb₀, hpred⟩
      cases hfind : tbl.find? (fun b => b.id == vb.id) with
      | some c => exact ⟨c, rfl⟩
      | none => exact absurd hpred (List.find?_eq_none.1 hfind b₀ hb₀)
    rcases hex with ⟨c, hc⟩
    rw [hc]
    rfl
  · rename_i hany
    have hnone : tbl.find? (fun b => b.id == vb.id) = none := by
      rw [List.find?_eq_none]
      intro c hcm hpred
      exact hany (List.any_eq_true.2 ⟨c, hcm, hpred⟩)
    rw [List.find?_append, hnone]
    simp [List.find?_cons]

/-- Folding upserts whose ids all differ from x leaves the lookup of x
unchanged. -/
theorem foldlUpsertBook_find_other (x : String) :
    ∀ (vbs : List ValidBook), (∀ v ∈ vbs, v.id ≠ x) → ∀ tbl : List BookRecord,
      (vbs.foldl upsertBook tbl).find? (fun b => b.id == x) =
        tbl.find? (fun b => b.id == x) := by
  intro vbs
  induction vbs with
  | nil => intro _ tbl; rfl
  | cons v rest ih =>
      intro hv tbl
      rw [List.foldl_cons,
        ih (fun a ha => hv a (List.mem_cons_of_mem v ha)) (upsertBook tbl v)]
      exact upsertBook_find_other tbl v x (hv v (List.mem_cons_self v rest))

/-- An upsert never deletes a row: every stored id is still present. -/
theorem upsertBook_preserves_ids (tbl : List BookRecord) (vb : ValidBook) :
    ∀ b ∈ tbl, ∃ b₂ ∈ upsertBook tbl vb, b₂.id = b.id := by
  intro b hb
  unfold upsertBook
  split
  · refine ⟨_, List.mem_map_of_mem (fun b =>
      if b.id == vb.id then
        { b with child := vb.child, month := vb.month,
                 start_date := vb.start_date, end_date := vb.end_date }
      else b) hb, ?_⟩
    by_cases hg : (b.id == vb.id) = true
    · simp [hg]
    · simp [hg]
  · exact ⟨b, List.mem_append_left _ hb, rfl⟩

/-- The full upsert fold never deletes a row. -/
theorem foldlUpsertBook_preserves_ids :
    ∀ (vbs : List ValidBook) (tbl : List BookRecord), ∀ b ∈ tbl,
      ∃ b₂ ∈ vbs.foldl upsertBook tbl, b₂.id = b.id := by
  intro vbs
  induction vbs with
  | nil => intro tbl b hb; exact ⟨b, hb, rfl⟩
  | cons v rest ih =>
      intro tbl b hb
      rcases upsertBook_preserves_ids tbl v b hb with ⟨b₁, hb₁, hid₁⟩
      rcases ih (upsertBook tbl v) b₁ hb₁ with ⟨b₂, hb₂, hid₂⟩
      refine ⟨b₂, ?_, hid₂.trans hid₁⟩
      rw [List.foldl_cons]
      exact hb₂

/-- C9: reloading the books configuration with a valid entry for an id
already stored updates child, month, start_date and end_date of that row
but keeps its completed flag; and the reload never deletes any stored
BookRecord. -/
theorem claim_c9 (tbl : List BookRecord) (entries : List RawBook)
    (b : BookRecord) (vb : ValidBook)
    (hN : (tbl.map (fun x => x.id)).Nodup)
    (hb : b ∈ tbl)
    (hvb : vb ∈ validateBooks entries)
    (hid : vb.id = b.id) :
    (loadBooksApply entries tbl).find? (fun x => x.id == vb.id) =
      some (BookRecord.mk b.id vb.child vb.month vb.start_date vb.end_date
        b.completed) ∧
    ∀ b₀ ∈ tbl, ∃ b₂ ∈ loadBooksApply entries tbl, b₂.id = b₀.id := by
  constructor
  · obtain ⟨l₁, l₂, hsplit⟩ := List.append_of_mem hvb
    have hnodup := validateBooks_ids_nodup entries
    rw [hsplit, List.map_append] at hnodup
    obtain ⟨hn₁, hn₂, hdisj⟩ := List.nodup_append.1 hnodup
    have hl₂ : ∀ v ∈ l₂, v.id ≠ vb.id := by
      intro v hvm heq
      rw [List.map_cons] at hn₂
      exact (List.nodup_cons.1 hn₂).1 (heq ▸ List.mem_map_of_mem _ hvm)
    have hl₁ : ∀ v ∈ l₁, v.id ≠ vb.id := by
      intro v hvm heq
      refine hdisj (List.mem_map_of_mem _ hvm) ?_
      rw [heq, List.map_cons]
      exact List.mem_cons_self _ _
    have hfindvb : tbl.find? (fun x => x.id == vb.id) = some b := by
      rw [hid]
      exact find_key_of_mem_nodup (fun x : BookRecord => x.id) tbl b hN hb
    unfold loadBooksApply
    rw [hsplit, List.foldl_append, List.foldl_cons,
      foldlUpsertBook_find_other vb.id l₂ hl₂ _, upsertBook_find_self,
      foldlUpsertBook_find_other vb.id l₁ hl₁ tbl, hfindvb]
  · intro b₀ hb₀
    exact foldlUpsertBook_preserves_ids (validateBooks entries) tbl b₀ hb₀

/-- Witness for claim_c9: reloading book b1 refreshes its fields and keeps
its stored completed flag. -/
theorem claim_c9_witness :
    (loadBooksApply [c9raw] c9tbl).find? (fun x => x.id == "b1") =
      some (BookRecord.mk "b1" "kid" 1 "2024-01-01" "2024-01-31" true) :=
  (claim_c9 c9tbl [c9raw]
    (BookRecord.mk "b1" "old" 2 "2023-01-01" "2023-02-01" true)
    (ValidBook.mk "b1" "kid" 1 "2024-01-01" "2024-01-31")
    (by decide) (by decide) (by decide) rfl).1

/-- Concatenating the first n windows of width L of a list yields its
prefix of length n * L. -/
theorem concatPages_take_drop {α : Type} (l : List α) (L : Nat) :
    ∀ n : Nat, concatPages (fun k => (l.drop (k * L)).take L) n = l.take (n * L) := by
  intro n
  induction n with
  | zero => simp [concatPages]
  | succ n ih =>
      rw [concatPages, ih, Nat.succ_mul, List.take_add]

/-- Enough windows of width L reproduce the whole list. -/
theorem concatPages_full {α : Type} (l : List α) (L n : Nat)
    (h : l.length ≤ n * L) :
    concatPages (fun k => (l.drop (k * L)).take L) n = l := by
  rw [concatPages_take_drop, List.take_of_length_le h]

/-- Page concatenation commutes with mapping each page. -/
theorem concatPages_map {α β : Type} (g : Nat → List α) (h : α → β) :
    ∀ n, concatPages (fun k => (g k).map h) n = (concatPages g n).map h := by
  intro n
  induction n with
  | zero => rfl
  | succ n ih => rw [concatPages, concatPages, List.map_append, ih]

/-- Inserting into a sorted list is a permutation of consing. -/
theorem insertSorted_perm {α : Type} (le : α → α → Bool) (a : α) :
    ∀ l : List α, (insertSorted le a l).Perm (a :: l) := by
  intro l
  induction l with
  | nil => exact List.Perm.refl _
  | cons b t ih =>
      unfold insertSorted
      split
      · exact List.Perm.refl _
      · exact (List.Perm.cons b ih).trans (List.Perm.swap a b t)

/-- The ORDER BY embedding returns a permutation of its input. -/
theorem sortBy_perm {α : Type} (le : α → α → Bool) :
    ∀ l : List α, (sortBy le l).Perm l := by
  intro l
  induction l with
  | nil => exact List.Perm.refl _
  | cons a t ih =>
      unfold sortBy
      exact (insertSorted_perm le a (sortBy le t)).trans (List.Perm.cons a ih)

/-- When every pooled photo carries a thumbnail reference, the api_book
page is exactly the LIMIT/OFFSET window of the ordered pool, mapped to
page items. -/
theorem bookPage_photos_eq (cat : Catalog) (bookId : String) (book : BookRecord)
    (offset limit : Nat) (selectedOnly : Bool)
    (hthumb : ∀ r ∈ bookPool cat bookId book selectedOnly, r.thumbnail_path ≠ "") :
    (bookPage cat bookId book offset limit selectedOnly).photos =
      (((bookSorted cat bookId book selectedOnly).drop offset).take limit).map
        (pageItemOf cat bookId) := by
  have hsub : ∀ r ∈ ((sortBy photoLe (bookPool cat bookId book
      selectedOnly)).drop offset).take limit, (r.thumbnail_path != "") = true := by
    intro r hr
    have h1 := List.mem_of_mem_take hr
    have h2 := List.mem_of_mem_drop h1
    have h3 : r ∈ bookPool cat bookId book selectedOnly :=
      (sortBy_perm photoLe _).mem_iff.1 h2
    simpa using hthumb r h3
  simp only [bookPage, bookSorted]
  rw [List.filter_eq_self.2 hsub]

/-- The length of the ordered pool equals the pool count reported as
total_photos. -/
theorem bookSorted_length (cat : Catalog) (bookId : String) (book : BookRecord)
    (selectedOnly : Bool) :
    (bookSorted cat bookId book selectedOnly).length =
      (bookPool cat bookId book selectedOnly).length :=
  (sortBy_perm photoLe _).length_eq

/-- When every pooled photo carries a thumbnail reference, the has_more
flag of the api_book page is true exactly when photos of the ordered pool
remain beyond the requested window. -/
theorem bookPage_hasMore_iff (cat : Catalog) (bookId : String) (book : BookRecord)
    (offset limit : Nat) (selectedOnly : Bool)
    (hthumb : ∀ r ∈ bookPool cat bookId book selectedOnly, r.thumbnail_path ≠ "") :
    ((bookPage cat bookId book offset limit selectedOnly).hasMore = true) ↔
      (bookSorted cat bookId book selectedOnly).drop (offset + limit) ≠ [] := by
  have hlen : (bookPage cat bookId book offset limit selectedOnly).photos.length =
      min limit ((bookPool cat bookId book selectedOnly).length - offset) := by
    rw [bookPage_photos_eq cat bookId book offset limit selectedOnly hthumb,
      List.length_map, List.length_take, List.length_drop, bookSorted_length]
  have hh : (bookPage cat bookId book offset limit selectedOnly).hasMore =
      decide (offset + (bookPage cat bookId book offset limit selectedOnly).photos.length <
        (bookPool cat bookId book selectedOnly).length) := rfl
  rw [hh, hlen]
  constructor
  · intro hdec
    have hlt := of_decide_eq_true hdec
    intro hnil
    rw [List.drop_eq_nil_iff, bookSorted_length] at hnil
    omega
  · intro hne
    apply decide_eq_true
    have hgt : ¬ ((bookSorted cat bookId book selectedOnly).length ≤ offset + limit) :=
      fun hle => hne (List.drop_eq_nil_iff.2 hle)
    rw [bookSorted_length] at hgt
    omega

/-- C1 counterexample: the catalog cat1 holds exactly one photo inside the
range of book1, but its thumbnail reference is still empty, so the single
page covering the whole window returns no photos while total is 1 and
has_more claims more photos remain: the concatenated pages miss the
in-range photo and the has-more flag is wrong. -/
theorem claim_c1_counterexample :
    findBook cat1 "b1" = some book1 ∧
    (bookPage cat1 "b1" book1 0 240 false).photos = [] ∧
    (bookPage cat1 "b1" book1 0 240 false).totalPhotos = 1 ∧
    (bookPage cat1 "b1" book1 0 240 false).hasMore = true ∧
    bookPool cat1 "b1" book1 false = [photoNoThumb] := by
  decide

/-- C1 (amended): under the additional hypothesis that every photo of the
pool carries a non-empty thumbnail reference, api_book resolves the book
and pages stably: concatenating the pages of consecutive offset/limit
windows reproduces the full list of in-range (optionally selected-only)
photos ordered by capture date then id, with pairwise distinct ids, and
has_more is true exactly when photos remain beyond the window.  (Without
that hypothesis the page drops pending-thumbnail rows while counting them
in total_photos, see the counterexample.) -/
theorem claim_c1 (cat : Catalog) (bookId : String) (book : BookRecord)
    (selectedOnly : Bool) (L n offset limit : Nat)
    (hbook : findBook cat bookId = some book)
    (hthumb : ∀ r ∈ bookPool cat bookId book selectedOnly, r.thumbnail_path ≠ "")
    (hids : (cat.photos.map (fun r => r.id)).Nodup)
    (hcover : (bookPool cat bookId book selectedOnly).length ≤ n * L) :
    apiBook cat bookId offset limit selectedOnly =
      Except.ok (bookPage cat bookId book offset limit selectedOnly) ∧
    concatPages (fun k =>
        (bookPage cat bookId book (k * L) L selectedOnly).photos) n =
      (bookSorted cat bookId book selectedOnly).map (pageItemOf cat bookId) ∧
    ((bookSorted cat bookId book selectedOnly).map (fun r => r.id)).Nodup ∧
    ((bookPage cat bookId book offset limit selectedOnly).hasMore = true ↔
      (bookSorted cat bookId book selectedOnly).drop (offset + limit) ≠ []) := by
  refine ⟨?_, ?_, ?_, bookPage_hasMore_iff cat bookId book offset limit selectedOnly hthumb⟩
  · unfold apiBook
    rw [hbook]
  · have hfn : (fun k =>
        (bookPage cat bookId book (k * L) L selectedOnly).photos) = (fun k =>
        (((bookSorted cat bookId book selectedOnly).drop (k * L)).take L).map
          (pageItemOf cat bookId)) :=
      funext (fun k => bookPage_photos_eq cat bookId book (k * L) L selectedOnly hthumb)
    rw [hfn,
      concatPages_map (fun k =>
        ((bookSorted cat bookId book selectedOnly).drop (k * L)).take L)
        (pageItemOf cat bookId) n,
      concatPages_full _ L n (by rw [bookSorted_length]; exact hcover)]
  · have hsub : (bookPool cat bookId book selectedOnly).Sublist cat.photos :=
      List.filter_sublist cat.photos
    have hpool : ((bookPool cat bookId book selectedOnly).map
        (fun r : PhotoRecord => r.id)).Nodup :=
      List.Nodup.sublist (hsub.map (fun r : PhotoRecord => r.id)) hids
    exact (((sortBy_perm photoLe (bookPool cat bookId book selectedOnly)).map
      (fun r : PhotoRecord => r.id)).nodup_iff).2 hpool

/-- Witness for claim_c1: two thumbnailed in-range photos, windows of
width one. -/
theorem claim_c1_witness :
    concatPages (fun k => (bookPage cat1w "b1" book1 (k * 1) 1 false).photos) 2 =
      (bookSorted cat1w "b1" book1 false).map (pageItemOf cat1w "b1") :=
  (claim_c1 cat1w "b1" book1 false 1 2 0 240
    (by decide) (by decide) (by decide) (by decide)).2.1

/-- A stat failure only records the path and the error. -/
theorem walkStep_statfail (existing : List PhotoRecord) (force : Bool)
    (acc : WalkAcc) (f : FsFile) (hstat : f.stat = none) :
    walkStep existing force acc f =
      { acc with seen := acc.seen ++ [f.path], errC := acc.errC + 1 } := by
  simp [walkStep, hstat]

/-- An unknown path inserts a fresh record with an empty thumbnail
reference and counts as new. -/
theorem walkStep_new (existing : List PhotoRecord) (force : Bool)
    (acc : WalkAcc) (f : FsFile) (mt sz : Int)
    (hstat : f.stat = some (mt, sz))
    (hfind : existing.find? (fun r => r.file_path == f.path) = none) :
    walkStep existing force acc f =
      { acc with
          seen := acc.seen ++ [f.path],
          photos := acc.photos ++ [PhotoRecord.mk acc.nextId f.path f.dateTaken "" mt sz],
          nextId := acc.nextId + 1,
          newC := acc.newC + 1,
          idxC := acc.idxC + 1 } := by
  simp [walkStep, hstat, hfind]

/-- A known changed path rewrites the record in place and counts as
updated. -/
theorem walkStep_known_changed (existing : List PhotoRecord) (force : Bool)
    (acc : WalkAcc) (f : FsFile) (mt sz : Int) (row : PhotoRecord)
    (hstat : f.stat = some (mt, sz))
    (hfind : existing.find? (fun r => r.file_path == f.path) = some row)
    (hch : (force || !(row.file_mtime == mt) || !(row.file_size == sz)) = true) :
    walkStep existing force acc f =
      { acc with
          seen := acc.seen ++ [f.path],
          photos := acc.photos.map (fun r =>
            if r.id == row.id then
              { r with date_taken := f.dateTaken, thumbnail_path := "",
                       file_mtime := mt, file_size := sz }
            else r),
          updC := acc.updC + 1,
          idxC := acc.idxC + 1 } := by
  simp [walkStep, hstat, hfind, hch]

/-- A known unchanged path only records the observed path. -/
theorem walkStep_known_unchanged (existing : List PhotoRecord) (force : Bool)
    (acc : WalkAcc) (f : FsFile) (mt sz : Int) (row : PhotoRecord)
    (hstat : f.stat = some (mt, sz))
    (hfind : existing.find? (fun r => r.file_path == f.path) = some row)
    (hch : (force || !(row.file_mtime == mt) || !(row.file_size == sz)) = false) :
    walkStep existing force acc f = { acc with seen := acc.seen ++ [f.path] } := by
  simp [walkStep, hstat, hfind, hch]

/-- The in-place update of a changed record keeps the path column of every
row. -/
theorem map_update_paths (l : List PhotoRecord) (i : Int) (d : String) (mt sz : Int) :
    (l.map (fun r =>
      if r.id == i then
        { r with date_taken := d, thumbnail_path := "",
                 file_mtime := mt, file_size := sz }
      else r)).map (fun r => r.file_path) = l.map (fun r => r.file_path) := by
  rw [List.map_map]
  apply List.map_congr_left
  intro a _
  by_cases hg : (a.id == i) = true
  · simp [Function.comp, hg]
  · simp [Function.comp, hg]

/-- One walk step never decreases the id allocator. -/
theorem walkStep_nextId_le (existing : List PhotoRecord) (force : Bool)
    (acc : WalkAcc) (f : FsFile) :
    acc.nextId ≤ (walkStep existing force acc f).nextId := by
  rcases hstat : f.stat with _ | ⟨mt, sz⟩
  · rw [walkStep_statfail existing force acc f hstat]
  · cases hfind : existing.find? (fun r => r.file_path == f.path) with
    | none =>
        rw [walkStep_new existing force acc f mt sz hstat hfind]
        simp
    | some row =>
        by_cases hch : (force || !(row.file_mtime == mt) || !(row.file_size == sz)) = true
        · rw [walkStep_known_changed existing force acc f mt sz row hstat hfind hch]
        · have hch2 : (force || !(row.file_mtime == mt) || !(row.file_size == sz)) = false := by
            simpa using hch
          rw [walkStep_known_unchanged existing force acc f mt sz row hstat hfind hch2]

/-- A record whose id is not targeted by the step survives it untouched. -/
theorem walkStep_mem_preserved (existing : List PhotoRecord) (force : Bool)
    (acc : WalkAcc) (f : FsFile) (rec : PhotoRecord)
    (hrec : rec ∈ acc.photos)
    (hsafe : ∀ row, existing.find? (fun r => r.file_path == f.path) = some row →
      row.id ≠ rec.id) :
    rec ∈ (walkStep existing force acc f).photos := by
  rcases hstat : f.stat with _ | ⟨mt, sz⟩
  · rw [walkStep_statfail existing force acc f hstat]
    exact hrec
  · cases hfind : existing.find? (fun r => r.file_path == f.path) with
    | none =>
        rw [walkStep_new existing force acc f mt sz hstat hfind]
        exact List.mem_append_left _ hrec
    | some row =>
        by_cases hch : (force || !(row.file_mtime == mt) || !(row.file_size == sz)) = true
        · rw [walkStep_known_changed existing force acc f mt sz row hstat hfind hch]
          refine List.mem_map.2 ⟨rec, hrec, ?_⟩
          have hne : (rec.id == row.id) = false := by
            simp
            intro h
            exact hsafe row hfind h.symm
          simp [hne]
        · have hch2 : (force || !(row.file_mtime == mt) || !(row.file_size == sz)) = false := by
            simpa using hch
          rw [walkStep_known_unchanged existing force acc f mt sz row hstat hfind hch2]
          exact hrec

/-- The observed paths after the walk are the walked file paths appended
to the paths already observed. -/
theorem walk_seen (existing : List PhotoRecord) (force : Bool) :
    ∀ (fs : List FsFile) (acc : WalkAcc),
      (walk existing force fs acc).seen = acc.seen ++ fs.map (fun f => f.path) := by
  intro fs
  induction fs with
  | nil => intro acc; simp [walk]
  | cons f t ih =>
      intro acc
      have hstep : (walkStep existing force acc f).seen = acc.seen ++ [f.path] := by
        rcases hstat : f.stat with _ | ⟨mt, sz⟩
        · rw [walkStep_statfail existing force acc f hstat]
        · cases hfind : existing.find? (fun r => r.file_path == f.path) with
          | none => rw [walkStep_new existing force acc f mt sz hstat hfind]
          | some row =>
              by_cases hch : (force || !(row.file_mtime == mt) || !(row.file_size == sz)) = true
              · rw [walkStep_known_changed existing force acc f mt sz row hstat hfind hch]
              · have hch2 : (force || !(row.file_mtime == mt) ||
                    !(row.file_size == sz)) = false := by simpa using hch
                rw [walkStep_known_unchanged existing force acc f mt sz row hstat hfind hch2]
      simp only [walk]
      rw [ih, hstep, List.map_cons, List.append_assoc]
      rfl

/-- A record whose id is never targeted along the walk survives it
untouched. -/
theorem walk_preserve_rec (existing : List PhotoRecord) (force : Bool) :
    ∀ (fs : List FsFile) (acc : WalkAcc) (rec : PhotoRecord),
      rec ∈ acc.photos →
      (∀ f ∈ fs, ∀ row, existing.find? (fun r => r.file_path == f.path) = some row →
        row.id ≠ rec.id) →
      rec ∈ (walk existing force fs acc).photos := by
  intro fs
  induction fs with
  | nil => intro acc rec h _; exact h
  | cons f t ih =>
      intro acc rec hrec hsafe
      simp only [walk]
      refine ih (walkStep existing force acc f) rec ?_ ?_
      · exact walkStep_mem_preserved existing force acc f rec hrec
          (fun row h => hsafe f (List.mem_cons_self f t) row h)
      · intro a ha row h
        exact hsafe a (List.mem_cons_of_mem f ha) row h

/-- When every walked file either fails to stat or matches its stored
record exactly, a force-less walk counts nothing as new or updated. -/
theorem walk_counts_frozen (existing : List PhotoRecord) :
    ∀ fs : List FsFile,
      (∀ f ∈ fs, f.stat = none ∨ ∃ mt sz row, f.stat = some (mt, sz) ∧
        existing.find? (fun r => r.file_path == f.path) = some row ∧
        row.file_mtime = mt ∧ row.file_size = sz) →
      ∀ acc : WalkAcc,
        (walk existing false fs acc).newC = acc.newC ∧
        (walk existing false fs acc).updC = acc.updC := by
  intro fs
  induction fs with
  | nil => intro _ acc; exact ⟨rfl, rfl⟩
  | cons f t ih =>
      intro hf acc
      have hstep : (walkStep existing false acc f).newC = acc.newC ∧
          (walkStep existing false acc f).updC = acc.updC := by
        rcases hf f (List.mem_cons_self f t) with hnone | ⟨mt, sz, row, hstat, hfind, hmt, hsz⟩
        · rw [walkStep_statfail existing false acc f hnone]
          exact ⟨rfl, rfl⟩
        · have hch : (false || !(row.file_mtime == mt) || !(row.file_size == sz)) = false := by
            simp [hmt, hsz]
          rw [walkStep_known_unchanged existing false acc f mt sz row hstat hfind hch]
          exact ⟨rfl, rfl⟩
      obtain ⟨ihn, ihu⟩ := ih (fun a ha => hf a (List.mem_cons_of_mem f ha))
        (walkStep existing false acc f)
      constructor
      · simp only [walk]
        rw [ihn, hstep.1]
      · simp only [walk]
        rw [ihu, hstep.2]

/-- After a walk over distinct paths, every file that stats successfully
has a record carrying its path and current mtime/size: fresh paths are
inserted, changed paths are rewritten, unchanged paths already match, and
none of them is clobbered later in the walk. -/
theorem walk_exists_rec (existing : List PhotoRecord) (force : Bool) :
    ∀ (fs : List FsFile) (acc : WalkAcc),
      (fs.map (fun f => f.path)).Nodup →
      (existing.map (fun r => r.id)).Nodup →
      (∀ row ∈ existing, row.id < acc.nextId) →
      (∀ row ∈ existing, row.file_path ∈ fs.map (fun f => f.path) →
        row ∈ acc.photos) →
      ∀ f ∈ fs, ∀ mt sz : Int, f.stat = some (mt, sz) →
        ∃ rec ∈ (walk existing force fs acc).photos,
          rec.file_path = f.path ∧ rec.file_mtime = mt ∧ rec.file_size = sz := by
  intro fs
  induction fs with
  | nil => intro acc _ _ _ _ f hf; exact absurd hf (List.not_mem_nil f)
  | cons f₀ t ih =>
      intro acc hfsN hexN hbound hpresent f hf mt sz hstat
      have hf₀notT : f₀.path ∉ t.map (fun g => g.path) := by
        rw [List.map_cons] at hfsN
        exact (List.nodup_cons.1 hfsN).1
      have htN : (t.map (fun g => g.path)).Nodup := by
        rw [List.map_cons] at hfsN
        exact (List.nodup_cons.1 hfsN).2
      simp only [walk]
      rcases List.mem_cons.1 hf with heq | hft
      · subst heq
        cases hfind : existing.find? (fun r => r.file_path == f.path) with
        | none =>
            refine ⟨PhotoRecord.mk acc.nextId f.path f.dateTaken "" mt sz, ?_, rfl, rfl, rfl⟩
            refine walk_preserve_rec existing force t (walkStep existing force acc f) _ ?_ ?_
            · rw [walkStep_new existing force acc f mt sz hstat hfind]
              exact List.mem_append_right _ (List.mem_singleton.2 rfl)
            · intro g hg row hfindg hid
              have hrow := List.mem_of_find?_eq_some hfindg
              have hlt := hbound row hrow
              have heq2 : row.id = acc.nextId := hid
              omega
        | some row =>
            have hrowmem := List.mem_of_find?_eq_some hfind
            have hrowpath : row.file_path = f.path := by
              simpa using List.find?_some hfind
            have hrowacc : row ∈ acc.photos := by
              apply hpresent row hrowmem
              rw [List.map_cons, hrowpath]
              exact List.mem_cons_self _ _
            have hsafeT : ∀ g ∈ t, ∀ row₂,
                existing.find? (fun r => r.file_path == g.path) = some row₂ →
                row₂.id ≠ row.id := by
              intro g hg row₂ hfind₂ hid2
              have hrow₂mem := List.mem_of_find?_eq_some hfind₂
              have hrow₂path : row₂.file_path = g.path := by
                simpa using List.find?_some hfind₂
              have heq₂ : row₂ = row := List.inj_on_of_nodup_map hexN hrow₂mem hrowmem hid2
              apply hf₀notT
              rw [← hrowpath, ← heq₂, hrow₂path]
              exact List.mem_map_of_mem _ hg
            by_cases hch : (force || !(row.file_mtime == mt) || !(row.file_size == sz)) = true
            · refine ⟨PhotoRecord.mk row.id row.file_path f.dateTaken "" mt sz,
                ?_, hrowpath, rfl, rfl⟩
              refine walk_preserve_rec existing force t (walkStep existing force acc f) _ ?_ ?_
              · rw [walkStep_known_changed existing force acc f mt sz row hstat hfind hch]
                refine List.mem_map.2 ⟨row, hrowacc, ?_⟩
                simp
              · intro g hg row₂ hfind₂ hid2
                exact hsafeT g hg row₂ hfind₂ hid2
            · have hch2 : (force || !(row.file_mtime == mt) || !(row.file_size == sz)) = false := by
                simpa using hch
              have hmt : row.file_mtime = mt := by
                by_contra hne
                exact hch (by simp [hne])
              have hsz : row.file_size = sz := by
                by_contra hne
                exact hch (by simp [hne])
              refine ⟨row, ?_, hrowpath, hmt, hsz⟩
              refine walk_preserve_rec existing force t (walkStep existing force acc f) _ ?_ ?_
              · rw [walkStep_known_unchanged existing force acc f mt sz row hstat hfind hch2]
                exact hrowacc
              · exact hsafeT
      · refine ih (walkStep existing force acc f₀) htN hexN ?_ ?_ f hft mt sz hstat
        · intro row hrow
          exact lt_of_lt_of_le (hbound row hrow) (walkStep_nextId_le existing force acc f₀)
        · intro row hrow hpath
          have hrowacc : row ∈ acc.photos := by
            apply hpresent row hrow
            rw [List.map_cons]
            exact List.mem_cons_of_mem _ hpath
          apply walkStep_mem_preserved existing force acc f₀ row hrowacc
          intro row₂ hfind₂ hid2
          have hrow₂mem := List.mem_of_find?_eq_some hfind₂
          have hrow₂path : row₂.file_path = f₀.path := by
            simpa using List.find?_some hfind₂
          have heq₂ : row₂ = row := List.inj_on_of_nodup_map hexN hrow₂mem hrow hid2
          apply hf₀notT
          rw [← hrow₂path, heq₂]
          exact hpath

/-- Every record present after the walk carries either a path already
stored before the walk or the path of a walked file. -/
theorem walk_paths_sub (existing : List PhotoRecord) (force : Bool) :
    ∀ (fs : List FsFile) (acc : WalkAcc),
      ∀ rec ∈ (walk existing force fs acc).photos,
        rec.file_path ∈ acc.photos.map (fun r => r.file_path) ∨
        rec.file_path ∈ fs.map (fun f => f.path) := by
  intro fs
  induction fs with
  | nil => intro acc rec h; exact Or.inl (List.mem_map_of_mem _ h)
  | cons f₀ t ih =>
      intro acc rec hrec
      simp only [walk] at hrec
      rcases ih (walkStep existing force acc f₀) rec hrec with h | h
      · rcases hstat : f₀.stat with _ | ⟨mt, sz⟩
        · rw [walkStep_statfail existing force acc f₀ hstat] at h
          exact Or.inl h
        · cases hfind : existing.find? (fun r => r.file_path == f₀.path) with
          | none =>
              rw [walkStep_new existing force acc f₀ mt sz hstat hfind] at h
              have h2 : rec.file_path ∈ acc.photos.map (fun r => r.file_path) ++
                  [f₀.path] := by
                simpa [List.map_append] using h
              rcases List.mem_append.1 h2 with h1 | h1
              · exact Or.inl h1
              · right
                rw [List.map_cons]
                have : rec.file_path = f₀.path := by simpa using h1
                rw [this]
                exact List.mem_cons_self _ _
          | some row =>
              by_cases hch : (force || !(row.file_mtime == mt) || !(row.file_size == sz)) = true
              · rw [walkStep_known_changed existing force acc f₀ mt sz row hstat hfind hch] at h
                have h2 : rec.file_path ∈ acc.photos.map (fun r => r.file_path) := by
                  have hmp := map_update_paths acc.photos row.id f₀.dateTaken mt sz
                  rw [← hmp]
                  exact h
                exact Or.inl h2
              · have hch2 : (force || !(row.file_mtime == mt) ||
                    !(row.file_size == sz)) = false := by simpa using hch
                rw [walkStep_known_unchanged existing force acc f₀ mt sz row hstat hfind hch2] at h
                exact Or.inl h
      · right
        rw [List.map_cons]
        exact List.mem_cons_of_mem _ h

/-- The walk keeps the path column duplicate-free: updates keep paths,
inserts add a path that is neither stored nor walked before. -/
theorem walk_paths_nodup (existing : List PhotoRecord) (force : Bool) :
    ∀ (fs : List FsFile) (acc : WalkAcc),
      (fs.map (fun f => f.path)).Nodup →
      (acc.photos.map (fun r => r.file_path)).Nodup →
      (∀ f ∈ fs, f.path ∈ acc.photos.map (fun r => r.file_path) →
        f.path ∈ existing.map (fun r => r.file_path)) →
      ((walk existing force fs acc).photos.map (fun r => r.file_path)).Nodup := by
  intro fs
  induction fs with
  | nil => intro acc _ h _; exact h
  | cons f₀ t ih =>
      intro acc hfsN haccN hclosed
      have hf₀notT : f₀.path ∉ t.map (fun g => g.path) := by
        rw [List.map_cons] at hfsN
        exact (List.nodup_cons.1 hfsN).1
      have htN : (t.map (fun g => g.path)).Nodup := by
        rw [List.map_cons] at hfsN
        exact (List.nodup_cons.1 hfsN).2
      have hstepPaths : (walkStep existing force acc f₀).photos.map (fun r => r.file_path) =
          acc.photos.map (fun r => r.file_path) ∨
          ((walkStep existing force acc f₀).photos.map (fun r => r.file_path) =
            acc.photos.map (fun r => r.file_path) ++ [f₀.path] ∧
            f₀.path ∉ existing.map (fun r => r.file_path)) := by
        rcases hstat : f₀.stat with _ | ⟨mt, sz⟩
        · rw [walkStep_statfail existing force acc f₀ hstat]
          exact Or.inl rfl
        · cases hfind : existing.find? (fun r => r.file_path == f₀.path) with
          | none =>
              right
              constructor
              · rw [walkStep_new existing force acc f₀ mt sz hstat hfind]
                simp [List.map_append]
              · intro hmem
                rcases List.mem_map.1 hmem with ⟨r, hr, hrp⟩
                have := List.find?_eq_none.1 hfind r hr
                apply this
                simp [hrp]
          | some row =>
              by_cases hch : (force || !(row.file_mtime == mt) || !(row.file_size == sz)) = true
              · left
                rw [walkStep_known_changed existing force acc f₀ mt sz row hstat hfind hch]
                exact map_update_paths acc.photos row.id f₀.dateTaken mt sz
              · left
                have hch2 : (force || !(row.file_mtime == mt) ||
                    !(row.file_size == sz)) = false := by simpa using hch
                rw [walkStep_known_unchanged existing force acc f₀ mt sz row hstat hfind hch2]
      refine ih (walkStep existing force acc f₀) htN ?_ ?_
      · rcases hstepPaths with h | ⟨h, hnotex⟩
        · rw [h]; exact haccN
        · rw [h]
          rw [List.nodup_append]
          refine ⟨haccN, List.nodup_singleton _, ?_⟩
          intro p hp hp2
          have hpf : p = f₀.path := by simpa using hp2
          subst hpf
          have := hclosed f₀ (List.mem_cons_self f₀ t) hp
          exact hnotex this
      · intro g hg hgp
        have hgne : g.path ≠ f₀.path := by
          intro hgeq
          apply hf₀notT
          rw [← hgeq]
          exact List.mem_map_of_mem _ hg
        rcases hstepPaths with h | ⟨h, _⟩
        · rw [h] at hgp
          exact hclosed g (List.mem_cons_of_mem f₀ hg) hgp
        · rw [h] at hgp
          rcases List.mem_append.1 hgp with h1 | h1
          · exact hclosed g (List.mem_cons_of_mem f₀ hg) h1
          · exact absurd (by simpa using h1) hgne

/-- The thumbnail backfill fold only rewrites thumbnail references: any
projection insensitive to the thumbnail column is preserved row by row. -/
theorem backfill_foldl_key {β : Type} (fs : List FsFile) (keyF : PhotoRecord → β)
    (hk : ∀ (r : PhotoRecord) (i : Int),
      keyF { r with thumbnail_path := thumbName i } = keyF r) :
    ∀ (rows : List PhotoRecord) (acc : List PhotoRecord × Nat),
      ((rows.foldl (backfillStep fs) acc).1).map keyF = acc.1.map keyF := by
  intro rows
  induction rows with
  | nil => intro acc; rfl
  | cons row t ih =>
      intro acc
      rw [List.foldl_cons, ih]
      unfold backfillStep
      split
      · split
        · dsimp only
          rw [List.map_map]
          apply List.map_congr_left
          intro a _
          by_cases hg : (a.id == row.id) = true
          · simp [Function.comp, hg, hk]
          · simp [Function.comp, hg]
        · rfl
      · rfl

/-- The thumbnail backfill pass preserves any thumbnail-insensitive
projection of the table. -/
theorem backfill_key {β : Type} (fs : List FsFile) (keyF : PhotoRecord → β)
    (hk : ∀ (r : PhotoRecord) (i : Int),
      keyF { r with thumbnail_path := thumbName i } = keyF r)
    (photos : List PhotoRecord) (errs : Nat) :
    ((backfill fs photos errs).1).map keyF = photos.map keyF := by
  unfold backfill
  exact backfill_foldl_key fs keyF hk _ _

/-- Filtering a mapped list has the same length as filtering the source by
the composed predicate. -/
theorem length_filter_map_proj {α β : Type} (h : α → β) (q : β → Bool)
    (l : List α) :
    ((l.map h).filter q).length = (l.filter (fun x => q (h x))).length := by
  induction l with
  | nil => rfl
  | cons a t ih =>
      rw [List.map_cons, List.filter_cons, List.filter_cons]
      cases hq : q (h a)
      · simpa [hq] using ih
      · simpa [hq] using ih

/-- The observed-path list of a run is exactly the walked file paths. -/
theorem walkOut_seen (force : Bool) (fs : List FsFile) (cat : Catalog) :
    (walkOut force fs cat).seen = fs.map (fun f => f.path) := by
  unfold walkOut
  rw [walk_seen]
  rfl

/-- C6: a catalog record whose path is not observed by the walk is removed
by the run: no record with its path survives, no selection row referencing
its id survives in any book, and the removed counter equals the number of
such missing records. -/
theorem claim_c6 (force : Bool) (now : String) (fs : List FsFile)
    (cat : Catalog) (js : IndexJobState) (r : PhotoRecord)
    (hidN : (cat.photos.map (fun x => x.id)).Nodup)
    (hr : r ∈ cat.photos)
    (hmiss : r.file_path ∉ fs.map (fun f => f.path)) :
    (∀ rec ∈ (indexPhotos force true now fs cat js).catalog.photos,
        rec.file_path ≠ r.file_path) ∧
    (∀ s ∈ (indexPhotos force true now fs cat js).catalog.selections,
        s.photo_id ≠ r.id) ∧
    (indexPhotos force true now fs cat js).js.removed =
      (cat.photos.filter (fun rec =>
        !((fs.map (fun f => f.path)).contains rec.file_path))).length := by
  have hrun : indexPhotos force true now fs cat js =
      indexPhotosRun force now fs cat js := rfl
  have hcontains : ((fs.map (fun f => f.path)).contains r.file_path) = false :=
    Bool.eq_false_iff.2 (fun h => hmiss ((containsStr_iff _ _).1 h))
  have hrmiss : r.file_path ∈ missingOf force fs cat := by
    unfold missingOf
    refine List.mem_filter.2 ⟨List.mem_map_of_mem _ hr, ?_⟩
    rw [walkOut_seen, hcontains]
    rfl
  refine ⟨?_, ?_, ?_⟩
  · intro rec hrec heqpath
    rw [hrun] at hrec
    have hrecb : rec ∈ (backfill fs (photosAfterRemoval force fs cat)
        (walkOut force fs cat).errC).1 := hrec
    have hbk := backfill_key fs (fun rec => rec.file_path) (fun _ _ => rfl)
      (photosAfterRemoval force fs cat) (walkOut force fs cat).errC
    have hmem : rec.file_path ∈ (photosAfterRemoval force fs cat).map
        (fun rec => rec.file_path) := by
      rw [← hbk]
      exact List.mem_map_of_mem _ hrecb
    rcases List.mem_map.1 hmem with ⟨rec₁, hrec₁, hp₁⟩
    have hpred := (List.mem_filter.1 hrec₁).2
    have hcontains₁ : (missingOf force fs cat).contains rec₁.file_path = false := by
      cases hcf : (missingOf force fs cat).contains rec₁.file_path
      · rfl
      · rw [hcf] at hpred
        exact absurd hpred (by decide)
    have : (missingOf force fs cat).contains rec₁.file_path = true := by
      rw [containsStr_iff]
      rw [hp₁, heqpath]
      exact hrmiss
    rw [this] at hcontains₁
    exact absurd hcontains₁ (by decide)
  · intro s hs heq
    rw [hrun] at hs
    have hspred := (List.mem_filter.1 hs).2
    have hrwalk : r ∈ (walkOut force fs cat).photos := by
      unfold walkOut
      refine walk_preserve_rec cat.photos force fs _ r hr ?_
      intro f hf row hfind hidr
      have hrowmem := List.mem_of_find?_eq_some hfind
      have hrowpath : row.file_path = f.path := by
        simpa using List.find?_some hfind
      have heqr : row = r := List.inj_on_of_nodup_map hidN hrowmem hr hidr
      apply hmiss
      rw [← heqr, hrowpath]
      exact List.mem_map_of_mem _ hf
    have hridmem : r.id ∈ missingIdsOf force fs cat := by
      unfold missingIdsOf
      refine List.mem_map_of_mem _ (List.mem_filter.2 ⟨hrwalk, ?_⟩)
      rw [containsStr_iff]
      exact hrmiss
    have : (missingIdsOf force fs cat).contains s.photo_id = true := by
      rw [containsInt_iff, heq]
      exact hridmem
    rw [this] at hspred
    exact absurd hspred (by decide)
  · rw [hrun]
    have hproj : (indexPhotosRun force now fs cat js).js.removed =
        (missingOf force fs cat).length := rfl
    rw [hproj]
    unfold missingOf
    rw [walkOut_seen]
    exact length_filter_map_proj (fun r => r.file_path)
      (fun p => !((fs.map (fun f => f.path)).contains p)) cat.photos

/-- Witness for claim_c6: with an empty walk, the only stored record is
missing and the removed counter counts it. -/
theorem claim_c6_witness :
    (indexPhotos false true "t2" [] cat6 jsRun).js.removed =
      (cat6.photos.filter (fun rec =>
        !((([] : List FsFile).map (fun f => f.path)).contains rec.file_path))).length :=
  (claim_c6 false "t2" [] cat6 jsRun
    (PhotoRecord.mk 1 "root/gone.jpg" "2024-01-10T00:00:00" "thumbs/1.jpg" 5 6)
    (by decide) (by decide) (by decide)).2.2

/-- After one run over distinct paths, the resulting table has a record
per successfully statted file carrying its current mtime/size, keeps its
path column duplicate-free, and holds only walked paths. -/
theorem indexPhotos_post (force : Bool) (now : String) (fs : List FsFile)
    (cat : Catalog) (js : IndexJobState)
    (hfsN : (fs.map (fun f => f.path)).Nodup)
    (hidN : (cat.photos.map (fun r => r.id)).Nodup)
    (hpathN : (cat.photos.map (fun r => r.file_path)).Nodup)
    (hbound : ∀ r ∈ cat.photos, r.id < cat.nextId) :
    (∀ f ∈ fs, ∀ mt sz : Int, f.stat = some (mt, sz) →
      ∃ rec ∈ (indexPhotos force true now fs cat js).catalog.photos,
        rec.file_path = f.path ∧ rec.file_mtime = mt ∧ rec.file_size = sz) ∧
    (((indexPhotos force true now fs cat js).catalog.photos.map
      (fun r => r.file_path)).Nodup) ∧
    (∀ rec ∈ (indexPhotos force true now fs cat js).catalog.photos,
      rec.file_path ∈ fs.map (fun f => f.path)) := by
  have hrun : indexPhotos force true now fs cat js =
      indexPhotosRun force now fs cat js := rfl
  have hmapkey := backfill_key fs
    (fun r => (r.file_path, r.file_mtime, r.file_size)) (fun _ _ => rfl)
    (photosAfterRemoval force fs cat) (walkOut force fs cat).errC
  have hmappath := backfill_key fs (fun r => r.file_path) (fun _ _ => rfl)
    (photosAfterRemoval force fs cat) (walkOut force fs cat).errC
  refine ⟨?_, ?_, ?_⟩
  · intro f hf mt sz hstat
    obtain ⟨rec, hrecw, hrpath, hrmt, hrsz⟩ :=
      walk_exists_rec cat.photos force fs
        (WalkAcc.mk cat.photos cat.nextId [] 0 0 0 0) hfsN hidN
        (fun row hrow => hbound row hrow) (fun row hrow _ => hrow) f hf mt sz hstat
    have hrecwalk : rec ∈ (walkOut force fs cat).photos := hrecw
    have hnotmiss : (missingOf force fs cat).contains rec.file_path = false := by
      cases hcf : (missingOf force fs cat).contains rec.file_path
      · rfl
      · exfalso
        have hmem := (containsStr_iff _ _).1 hcf
        have hpred := (List.mem_filter.1 hmem).2
        rw [walkOut_seen] at hpred
        have hin : (fs.map (fun f => f.path)).contains rec.file_path = true := by
          rw [containsStr_iff, hrpath]
          exact List.mem_map_of_mem _ hf
        rw [hin] at hpred
        exact absurd hpred (by decide)
    have hrecrem : rec ∈ photosAfterRemoval force fs cat := by
      refine List.mem_filter.2 ⟨hrecwalk, ?_⟩
      rw [hnotmiss]
      rfl
    have hkeymem : (rec.file_path, rec.file_mtime, rec.file_size) ∈
        ((backfill fs (photosAfterRemoval force fs cat)
          (walkOut force fs cat).errC).1).map
          (fun r => (r.file_path, r.file_mtime, r.file_size)) := by
      rw [hmapkey]
      exact List.mem_map_of_mem _ hrecrem
    rcases List.mem_map.1 hkeymem with ⟨rec₂, hrec₂, hkey₂⟩
    rw [Prod.mk.injEq, Prod.mk.injEq] at hkey₂
    rw [hrun]
    exact ⟨rec₂, hrec₂, hkey₂.1.trans hrpath, hkey₂.2.1.trans hrmt,
      hkey₂.2.2.trans hrsz⟩
  · rw [hrun]
    have hgoal : ((backfill fs (photosAfterRemoval force fs cat)
        (walkOut force fs cat).errC).1.map (fun r => r.file_path)).Nodup := by
      rw [hmappath]
      have hwN : ((walkOut force fs cat).photos.map (fun r => r.file_path)).Nodup := by
        unfold walkOut
        exact walk_paths_nodup cat.photos force fs _ hfsN hpathN (fun f _ h => h)
      have hsubl : (photosAfterRemoval force fs cat).Sublist
          (walkOut force fs cat).photos := by
        unfold photosAfterRemoval
        exact List.filter_sublist _
      exact List.Nodup.sublist (hsubl.map (fun r : PhotoRecord => r.file_path)) hwN
    exact hgoal
  · intro rec hrec
    rw [hrun] at hrec
    have hpm : rec.file_path ∈ (photosAfterRemoval force fs cat).map
        (fun r => r.file_path) := by
      rw [← hmappath]
      exact List.mem_map_of_mem _ hrec
    rcases List.mem_map.1 hpm with ⟨rec₁, hrec₁, hp₁⟩
    have hrec₁walk : rec₁ ∈ (walkOut force fs cat).photos :=
      (List.mem_filter.1 hrec₁).1
    have hin : rec₁.file_path ∈ fs.map (fun f => f.path) := by
      rcases walk_paths_sub cat.photos force fs
          (WalkAcc.mk cat.photos cat.nextId [] 0 0 0 0) rec₁ hrec₁walk with hc | hc
      · by_contra hnf
        have hq : (!((walkOut force fs cat).seen.contains rec₁.file_path)) = true := by
          rw [walkOut_seen]
          have hcf : (fs.map (fun f => f.path)).contains rec₁.file_path = false :=
            Bool.eq_false_iff.2 (fun h => hnf ((containsStr_iff _ _).1 h))
          rw [hcf]
          rfl
        have hmemMissing : rec₁.file_path ∈ missingOf force fs cat :=
          List.mem_filter.2 ⟨hc, hq⟩
        have hpred := (List.mem_filter.1 hrec₁).2
        have hct : (missingOf force fs cat).contains rec₁.file_path = true :=
          (containsStr_iff _ _).2 hmemMissing
        rw [hct] at hpred
        exact absurd hpred (by decide)
      · exact hc
    rw [← hp₁]
    exact hin

/-- A force-less run over a catalog that already mirrors the filesystem
(every statting file has a matching record, paths are unique, and every
record path is walked) counts nothing as new, updated or removed. -/
theorem indexPhotos_second (now : String) (fs : List FsFile) (cat₂ : Catalog)
    (js : IndexJobState)
    (hA : ∀ f ∈ fs, ∀ mt sz : Int, f.stat = some (mt, sz) →
      ∃ rec ∈ cat₂.photos, rec.file_path = f.path ∧ rec.file_mtime = mt ∧
        rec.file_size = sz)
    (hB : (cat₂.photos.map (fun r => r.file_path)).Nodup)
    (hC : ∀ rec ∈ cat₂.photos, rec.file_path ∈ fs.map (fun f => f.path)) :
    (indexPhotos false true now fs cat₂ js).js.new = 0 ∧
    (indexPhotos false true now fs cat₂ js).js.updated = 0 ∧
    (indexPhotos false true now fs cat₂ js).js.removed = 0 := by
  have hrun : indexPhotos false true now fs cat₂ js =
      indexPhotosRun false now fs cat₂ js := rfl
  have hfreeze : ∀ f ∈ fs, f.stat = none ∨ ∃ mt sz row, f.stat = some (mt, sz) ∧
      cat₂.photos.find? (fun r => r.file_path == f.path) = some row ∧
      row.file_mtime = mt ∧ row.file_size = sz := by
    intro f hf
    rcases hstat : f.stat with _ | ⟨mt, sz⟩
    · exact Or.inl rfl
    · right
      obtain ⟨rec, hrec, hrpath, hrmt, hrsz⟩ := hA f hf mt sz hstat
      have hfind := find_key_of_mem_nodup (fun x : PhotoRecord => x.file_path)
        cat₂.photos rec hB hrec
      have hfind2 : cat₂.photos.find? (fun r => r.file_path == f.path) = some rec := by
        rw [← hrpath]
        exact hfind
      exact ⟨mt, sz, rec, rfl, hfind2, hrmt, hrsz⟩
  obtain ⟨hn, hu⟩ := walk_counts_frozen cat₂.photos fs hfreeze
    (WalkAcc.mk cat₂.photos cat₂.nextId [] 0 0 0 0)
  have hmissnil : missingOf false fs cat₂ = [] := by
    unfold missingOf
    rw [walkOut_seen, List.filter_eq_nil_iff]
    intro p hp
    rcases List.mem_map.1 hp with ⟨rec, hrec, hrp⟩
    have hmem := hC rec hrec
    rw [hrp] at hmem
    have hct : (fs.map (fun f => f.path)).contains p = true :=
      (containsStr_iff _ _).2 hmem
    rw [hct]
    decide
  refine ⟨?_, ?_, ?_⟩
  · rw [hrun]
    exact hn
  · rw [hrun]
    exact hu
  · rw [hrun]
    have hproj : (indexPhotosRun false now fs cat₂ js).js.removed =
        (missingOf false fs cat₂).length := rfl
    rw [hproj, hmissnil]
    rfl

/-- C5: running reconciliation twice with force off over an unchanged
filesystem yields zero new, updated and removed counters on the second
run. -/
theorem claim_c5 (now now₂ : String) (fs : List FsFile) (cat : Catalog)
    (js js₂ : IndexJobState)
    (hfsN : (fs.map (fun f => f.path)).Nodup)
    (hidN : (cat.photos.map (fun r => r.id)).Nodup)
    (hpathN : (cat.photos.map (fun r => r.file_path)).Nodup)
    (hbound : ∀ r ∈ cat.photos, r.id < cat.nextId) :
    (indexPhotos false true now₂ fs
      (indexPhotos false true now fs cat js).catalog js₂).js.new = 0 ∧
    (indexPhotos false true now₂ fs
      (indexPhotos false true now fs cat js).catalog js₂).js.updated = 0 ∧
    (indexPhotos false true now₂ fs
      (indexPhotos false true now fs cat js).catalog js₂).js.removed = 0 := by
  obtain ⟨hA, hB, hC⟩ := indexPhotos_post false now fs cat js hfsN hidN hpathN hbound
  exact indexPhotos_second now₂ fs _ js₂ hA hB hC

/-- Witness for claim_c5: a single fresh file is inserted by the first run
and the second run reports zero new, updated and removed. -/
theorem claim_c5_witness :
    (indexPhotos false true "t3" fs5
      (indexPhotos false true "t2" fs5 cat5 jsRun).catalog jsRun).js.new = 0 ∧
    (indexPhotos false true "t3" fs5
      (indexPhotos false true "t2" fs5 cat5 jsRun).catalog jsRun).js.updated = 0 ∧
    (indexPhotos false true "t3" fs5
      (indexPhotos false true "t2" fs5 cat5 jsRun).catalog jsRun).js.removed = 0 :=
  claim_c5 "t2" "t3" fs5 cat5 jsRun jsRun (by decide) (by decide) (by decide)
    (by decide)
